import Mathlib

/-!
Verification of the podcast audio editor's core algorithms.

The definitions below are shallow embeddings of the TypeScript source:
  * src/lib/timing-helpers.ts   (token normalization, timing resolution)
  * src/lib/types.ts            (script/transcript alignment)
  * src/hooks/use-history.ts    (undo/redo history manager)
  * src/app/page.tsx            (audio splicer, per-word retiming, merge)

Modelling conventions:
  * JS numbers are embedded as exact rationals (ℚ); array indices as ℤ/ℕ.
  * JS strings are lists of characters (List Char).
  * Audio buffers are single-channel: the source applies identical
    per-channel loops, so one channel is modelled (List ℚ of samples).
  * Audio blobs/URLs are opaque handles.
-/

/- Rational arithmetic in Batteries is marked irreducible, which blocks
kernel evaluation of concrete witnesses by decide; restore reducibility
(the kernel itself ignores reducibility, so proofs are unaffected). -/
set_option allowUnsafeReducibility true in
attribute [semireducible] Rat.add Rat.mul Rat.inv Rat.sub Rat.neg Rat.div Rat.ofScientific

namespace Podcast

/-! ## JS numeric primitives -/

/-- JS Math.round: round half away from zero is Math.round's behaviour for
positive halves; Math.round rounds half towards +∞ (Math.round (-0.5) = 0),
which is ⌊x + 1/2⌋. -/
def jsRound (x : ℚ) : ℤ := ⌊x + 1 / 2⌋

/-- JS Math.floor. -/
def jsFloor (x : ℚ) : ℤ := ⌊x⌋

/-- JS Array.prototype.slice index resolution: negative indices count from the
end, then clamp to [0, len]. -/
def jsSliceIdx (len : ℕ) (i : ℤ) : ℕ :=
  if i < 0 then (max ((len : ℤ) + i) 0).toNat else (min i (len : ℤ)).toNat

/-- JS Array.prototype.slice l start end. -/
def jsSlice {α : Type} (l : List α) (s e : ℤ) : List α :=
  (l.take (jsSliceIdx l.length e)).drop (jsSliceIdx l.length s)

/-! ## Token / transcript normalizer (src/lib/timing-helpers.ts lines 1-17) -/

/-- Characters kept by the regex replace /[^a-z0-9']/gi on a lowercased
string: lowercase letters, digits, apostrophe. -/
def isKeptChar (c : Char) : Bool :=
  ('a' ≤ c && c ≤ 'z') || ('0' ≤ c && c ≤ '9') || c = '\''

/-- JS String.prototype.trim on a char list. -/
def jsTrim (s : List Char) : List Char :=
  ((s.dropWhile Char.isWhitespace).reverse.dropWhile Char.isWhitespace).reverse

/-- normalizeToken: t.toLowerCase().replace(regex, '').trim() . -/
def normalizeToken (t : List Char) : List Char :=
  jsTrim ((t.map Char.toLower).filter isKeptChar)

/-- Collapse runs of consecutive spaces to a single space (helper for the
JS replace of whitespace-runs by a single space). -/
def squeezeSpaces : List Char → List Char
  | [] => []
  | [c] => [c]
  | a :: b :: t =>
    if a = ' ' && b = ' ' then squeezeSpaces (b :: t) else a :: squeezeSpaces (b :: t)

/-- JS s.replace(whitespace-run-regex, ' '): every whitespace char becomes a
space and runs collapse to one space. -/
def collapseWs (s : List Char) : List Char :=
  squeezeSpaces (s.map (fun c => if c.isWhitespace then ' ' else c))

/-- tokenize: split on whitespace, normalize each, drop empties.  Splitting
at every whitespace char then filtering empties is equivalent to the JS
split on a whitespace-run regex. -/
def tokenize (s : List Char) : List (List Char) :=
  ((s.splitOnP Char.isWhitespace).map normalizeToken).filter (fun t => !t.isEmpty)

/-- Word entry of a transcript (src/lib/types.ts WordTiming). -/
structure WordTiming where
  text : List Char
  start : ℚ
  end_ : ℚ
  type : List Char
  speaker_id : List Char
  logprob : ℚ
deriving DecidableEq, Repr, Inhabited

/-- src/lib/types.ts TranscriptData. -/
structure TranscriptData where
  language_code : List Char
  language_probability : ℚ
  text : List Char
  words : List WordTiming
deriving DecidableEq, Repr, Inhabited

/-- A lexical word as produced by getTranscriptLexicalWords. -/
structure LexWord where
  text : List Char
  start : ℚ
  end_ : ℚ
deriving DecidableEq, Repr, Inhabited

/-- The "word" literal compared against the transcript entry type field. -/
def wordLit : List Char := ['w', 'o', 'r', 'd']

/-- getTranscriptLexicalWords: keep entries of type "word", normalize their
text, drop entries whose normalized text is empty. -/
def getTranscriptLexicalWords (transcript : Option TranscriptData) : List LexWord :=
  match transcript with
  | none => []
  | some t =>
    ((t.words.filter (fun w => w.type = wordLit)).map
      (fun w => ⟨normalizeToken w.text, w.start, w.end_⟩)).filter
      (fun w => !w.text.isEmpty)

/-- src/lib/types.ts TimingResult. -/
structure TimingResult where
  startTime : ℚ
  endTime : ℚ
deriving DecidableEq, Repr, Inhabited

/-! ## Timing resolution strategies (src/lib/timing-helpers.ts lines 19-165) -/

/-- getWordRangeTimingFromTranscript (lines 36-62). -/
def getWordRangeTimingFromTranscript (startIndex endIndex : ℤ)
    (transcript : Option TranscriptData) : Option TimingResult :=
  let lex := getTranscriptLexicalWords transcript
  if lex.length = 0 then none
  else if startIndex < 0 ∨ endIndex ≤ startIndex ∨ (lex.length : ℤ) ≤ startIndex then none
  else
    let clampedStart := max 0 (min startIndex ((lex.length : ℤ) - 1))
    let clampedEnd := max clampedStart (min (endIndex - 1) ((lex.length : ℤ) - 1))
    let startWord := lex.getD clampedStart.toNat default
    let endWord := lex.getD clampedEnd.toNat default
    let startTime := max 0 startWord.start
    let endTime := max startTime endWord.end_
    some ⟨startTime, endTime⟩

/-- The sliding-window membership test of getTimingByTokenMatch: do the
selection tokens occur verbatim at transcript token position i. -/
def windowMatchesAt (selTokens tTokens : List (List Char)) (i : ℕ) : Bool :=
  (List.range selTokens.length).all
    (fun k => selTokens.getD k [] == tTokens.getD (i + k) [])

/-- First i with i + selTokens.length ≤ tTokens.length whose window matches
(the JS for-loop returns on the first match). -/
def firstWindowMatch (selTokens tTokens : List (List Char)) : Option ℕ :=
  (List.range (tTokens.length + 1 - selTokens.length)).find?
    (fun i => windowMatchesAt selTokens tTokens i)

/-- getTimingByTokenMatch (lines 64-97). -/
def getTimingByTokenMatch (scriptWords : List (List Char)) (startIndex endIndex : ℤ)
    (transcript : Option TranscriptData) : Option TimingResult :=
  let lex := getTranscriptLexicalWords transcript
  if lex.length = 0 then none
  else
    let selTokens := ((jsSlice scriptWords startIndex endIndex).map normalizeToken).filter
      (fun t => !t.isEmpty)
    if selTokens.length = 0 then none
    else
      let tTokens := lex.map (fun w => w.text)
      match firstWindowMatch selTokens tTokens with
      | none => none
      | some i =>
        let startWord := lex.getD i default
        let endWord := lex.getD (i + selTokens.length - 1) default
        some ⟨startWord.start, endWord.end_⟩

/-- JS String.prototype.indexOf: least position where needle occurs. -/
def strIndexOf (hay needle : List Char) : Option ℕ :=
  (List.range (hay.length + 1)).find? (fun p => needle.isPrefixOf (hay.drop p))

/-- The inner normalize of getTimingByTextMatch: lowercase, collapse
whitespace runs to single spaces, trim. -/
def textNormalize (s : List Char) : List Char :=
  jsTrim (collapseWs (s.map Char.toLower))

/-- Join token lists with single spaces (lex.map(w => w.text).join(' ')). -/
def joinSpace (l : List (List Char)) : List Char :=
  (l.intersperse [' ']).flatten

/-- Count of nonempty chunks of s split at spaces
(s.split(' ').filter(Boolean).length). -/
def spaceTokenCount (s : List Char) : ℕ :=
  ((s.splitOnP (fun c => c = ' ')).filter (fun t => !t.isEmpty)).length

/-- getTimingByTextMatch (lines 99-135).  An empty sentence is falsy in JS,
hence rejected up front. -/
def getTimingByTextMatch (sentence : List Char)
    (transcript : Option TranscriptData) : Option TimingResult :=
  match transcript with
  | none => none
  | some t =>
    if sentence.isEmpty || t.text.isEmpty then none
    else
      let needle := textNormalize sentence
      let haystack := textNormalize t.text
      if needle.isEmpty || haystack.isEmpty then none
      else
        let lex := getTranscriptLexicalWords (some t)
        if lex.length = 0 then none
        else
          let built := joinSpace (lex.map (fun w => w.text))
          let cleanNeedle := jsTrim (collapseWs
            (needle.map (fun c => if isKeptChar c then c else ' ')))
          match strIndexOf built cleanNeedle with
          | none => none
          | some pos =>
            let preTokens := spaceTokenCount (built.take pos)
            let lenTokens := spaceTokenCount cleanNeedle
            let startIdx := preTokens
            let endIdx := min lex.length (startIdx + max 1 lenTokens)
            -- lex[startIdx] is undefined (falsy) when startIdx ≥ lex.length
            if startIdx < lex.length then
              some ⟨(lex.getD startIdx default).start, (lex.getD (endIdx - 1) default).end_⟩
            else none

/-- The relaxed selection text of the fourth strategy:
selectedText.replace(/[^a-zA-Z0-9'\s]/g, ' ').replace(ws-runs, ' ').trim() . -/
def isRelaxKept (c : Char) : Bool :=
  ('a' ≤ c && c ≤ 'z') || ('A' ≤ c && c ≤ 'Z') || ('0' ≤ c && c ≤ '9') ||
    c = '\'' || c.isWhitespace

def relaxedText (s : List Char) : List Char :=
  jsTrim (collapseWs (s.map (fun c => if isRelaxKept c then c else ' ')))

/-- resolveTimingForSelection (lines 137-165): the four strategies tried in
order, first success wins; the relaxed retry is guarded by the truthiness of
selectedText. -/
def resolveTimingForSelection (selectedText : List Char)
    (startWordIndex endWordIndex : ℤ) (scriptWords : List (List Char))
    (transcript : Option TranscriptData) : Option TimingResult :=
  match getWordRangeTimingFromTranscript startWordIndex endWordIndex transcript with
  | some timing => some timing
  | none =>
    match getTimingByTokenMatch scriptWords startWordIndex endWordIndex transcript with
    | some timing => some timing
    | none =>
      match getTimingByTextMatch selectedText transcript with
      | some timing => some timing
      | none =>
        if !selectedText.isEmpty then
          getTimingByTextMatch (relaxedText selectedText) transcript
        else none

/-! ## C10: getWordRangeTimingFromTranscript returns well-formed windows -/

/-- C10: for arbitrary indices and transcripts (negative, reversed or
overlapping word timings included), getWordRangeTimingFromTranscript returns
either none or a window with 0 ≤ startTime ≤ endTime. -/
theorem getWordRangeTiming_wellFormed (startIndex endIndex : ℤ)
    (transcript : Option TranscriptData) (w : TimingResult)
    (h : getWordRangeTimingFromTranscript startIndex endIndex transcript = some w) :
    0 ≤ w.startTime ∧ w.startTime ≤ w.endTime := by
  unfold getWordRangeTimingFromTranscript at h
  by_cases h0 : (getTranscriptLexicalWords transcript).length = 0
  · simp [h0] at h
  · simp only [h0, if_false] at h
    by_cases h1 : startIndex < 0 ∨ endIndex ≤ startIndex ∨
        ((getTranscriptLexicalWords transcript).length : ℤ) ≤ startIndex
    · simp [h1] at h
    · simp only [h1, if_false, Option.some.injEq] at h
      subst h
      exact ⟨le_max_left _ _, le_max_left _ _⟩

/-- Witness for C10 at a concrete degenerate transcript (a word with
negative, reversed timings). -/
theorem getWordRangeTiming_wellFormed_witness :
    getWordRangeTimingFromTranscript 0 1
      (some ⟨[], 1, [], [⟨['a'], -3, -7, wordLit, [], 0⟩]⟩) = some ⟨0, 0⟩ ∧
    (0 : ℚ) ≤ (0 : ℚ) ∧ (0 : ℚ) ≤ (0 : ℚ) := by
  refine ⟨by decide, ?_⟩
  exact getWordRangeTiming_wellFormed 0 1
    (some ⟨[], 1, [], [⟨['a'], -3, -7, wordLit, [], 0⟩]⟩) ⟨0, 0⟩ (by decide)

/-! ## Data model for editable state (src/lib/types.ts) -/

/-- src/lib/types.ts AudioData.  The playable URL and the blob are opaque
handles. -/
structure AudioData where
  url : List Char
  duration : ℚ
  waveform : List ℚ
  blob : Option ℕ
  transcript : Option TranscriptData
deriving DecidableEq, Repr, Inhabited

/-- src/lib/types.ts AudioSegment. -/
structure AudioSegment where
  startIndex : ℤ
  endIndex : ℤ
  audioUrl : List Char
  waveform : List ℚ
  blob : Option ℕ
  startTime : ℚ
  endTime : ℚ
  durationSec : Option ℚ
  transcript : Option TranscriptData
  text : Option (List Char)
deriving DecidableEq, Repr, Inhabited

/-- src/lib/types.ts HistoryState. -/
structure HistoryState where
  script : List Char
  audioData : Option AudioData
  audioSegments : List AudioSegment
  timestamp : ℚ
  action : List Char
deriving DecidableEq, Repr, Inhabited

/-! ## History manager (src/hooks/use-history.ts) -/

def MAX_HISTORY_SIZE : ℕ := 15

/-- cloneTranscript (use-history.ts lines 11-21): rebuild the transcript
object and every word object. -/
def cloneTranscript (t : Option TranscriptData) : Option TranscriptData :=
  match t with
  | none => none
  | some t =>
    some ⟨t.language_code, t.language_probability, t.text,
      t.words.map (fun w => ⟨w.text, w.start, w.end_, w.type, w.speaker_id, w.logprob⟩)⟩

/-- cloneAudioData (lines 23-32): waveform array copied, blob shared. -/
def cloneAudioData (a : Option AudioData) : Option AudioData :=
  match a with
  | none => none
  | some a => some ⟨a.url, a.duration, a.waveform, a.blob, cloneTranscript a.transcript⟩

/-- cloneAudioSegment (lines 34-45). -/
def cloneAudioSegment (s : AudioSegment) : AudioSegment :=
  ⟨s.startIndex, s.endIndex, s.audioUrl, s.waveform, s.blob, s.startTime,
    s.endTime, s.durationSec, cloneTranscript s.transcript, s.text⟩

/-- cloneHistoryState (lines 47-53). -/
def cloneHistoryState (state : HistoryState) : HistoryState :=
  ⟨state.script, cloneAudioData state.audioData,
    state.audioSegments.map cloneAudioSegment, state.timestamp, state.action⟩

/-- The hook's state: the history array and the current pointer. -/
structure Hist where
  history : List HistoryState
  historyIndex : ℤ
deriving DecidableEq, Repr, Inhabited

/-- The snapshot built by saveToHistory from its arguments (Date.now() is
passed explicitly as the now parameter). -/
def snapshotOf (action script : List Char) (audioData : Option AudioData)
    (audioSegments : List AudioSegment) (now : ℚ) : HistoryState :=
  ⟨script, cloneAudioData audioData, audioSegments.map cloneAudioSegment, now, action⟩

/-- saveToHistory (use-history.ts lines 55-82): truncate the redo branch at
the current pointer, append the snapshot, keep only the most recent
MAX_HISTORY_SIZE entries, move the pointer to the last entry. -/
def saveToHistory (st : Hist) (action script : List Char)
    (audioData : Option AudioData) (audioSegments : List AudioSegment)
    (now : ℚ) : Hist :=
  let snapshot := snapshotOf action script audioData audioSegments now
  let truncated := st.history.take ((max 0 st.historyIndex).toNat + 1)
  let appended := truncated ++ [snapshot]
  let trimmed :=
    if MAX_HISTORY_SIZE < appended.length then
      appended.drop (appended.length - MAX_HISTORY_SIZE)
    else appended
  ⟨trimmed, (trimmed.length : ℤ) - 1⟩

/-- undo (lines 84-90): no-op failure at the first entry or on an empty
list, otherwise step the pointer back and return a clone of that entry. -/
def undo (st : Hist) : Option HistoryState × Hist :=
  if st.historyIndex ≤ 0 then (none, st)
  else
    let previousState := st.history.getD (st.historyIndex - 1).toNat default
    (some (cloneHistoryState previousState), ⟨st.history, st.historyIndex - 1⟩)

/-- redo (lines 92-98). -/
def redo (st : Hist) : Option HistoryState × Hist :=
  if (st.history.length : ℤ) - 1 ≤ st.historyIndex then (none, st)
  else
    let nextState := st.history.getD (st.historyIndex + 1).toNat default
    (some (cloneHistoryState nextState), ⟨st.history, st.historyIndex + 1⟩)

/-! ### Clone functions are value-preserving -/

theorem cloneTranscript_eq (t : Option TranscriptData) : cloneTranscript t = t := by
  cases t with
  | none => rfl
  | some t =>
    cases t with
    | mk lc lp tx ws =>
      simp only [cloneTranscript, Option.some.injEq, TranscriptData.mk.injEq,
        true_and]
      exact List.map_id'' (fun w => by cases w; rfl) ws

theorem cloneAudioData_eq (a : Option AudioData) : cloneAudioData a = a := by
  cases a with
  | none => rfl
  | some a => cases a; simp [cloneAudioData, cloneTranscript_eq]

theorem cloneAudioSegment_eq (s : AudioSegment) : cloneAudioSegment s = s := by
  cases s; simp [cloneAudioSegment, cloneTranscript_eq]

theorem cloneHistoryState_eq (s : HistoryState) : cloneHistoryState s = s := by
  cases s
  simp only [cloneHistoryState, cloneAudioData_eq, HistoryState.mk.injEq, true_and,
    and_true]
  exact List.map_id'' cloneAudioSegment_eq _

theorem snapshotOf_fields (action script : List Char) (audioData : Option AudioData)
    (audioSegments : List AudioSegment) (now : ℚ) :
    snapshotOf action script audioData audioSegments now =
      ⟨script, audioData, audioSegments, now, action⟩ := by
  simp only [snapshotOf, cloneAudioData_eq, HistoryState.mk.injEq, true_and, and_true]
  exact List.map_id'' cloneAudioSegment_eq _

/-! ### Structure of the history list after a save -/

/-- The history after a save is a suffix of the truncated history followed
by the new snapshot: the if-trim equals an unconditional truncated drop. -/
theorem saveToHistory_history (st : Hist) (action script : List Char)
    (audioData : Option AudioData) (audioSegments : List AudioSegment) (now : ℚ) :
    (saveToHistory st action script audioData audioSegments now).history =
      (st.history.take ((max 0 st.historyIndex).toNat + 1)).drop
        ((st.history.take ((max 0 st.historyIndex).toNat + 1)).length + 1 - MAX_HISTORY_SIZE)
      ++ [snapshotOf action script audioData audioSegments now] := by
  unfold saveToHistory
  set tr := st.history.take ((max 0 st.historyIndex).toNat + 1) with htr
  simp only []
  by_cases h : MAX_HISTORY_SIZE < (tr ++ [snapshotOf action script audioData audioSegments now]).length
  · simp only [h, if_true]
    rw [List.length_append, List.length_singleton]
    rw [List.drop_append_of_le_length (by
      simp only [List.length_append, List.length_singleton] at h
      simp only [MAX_HISTORY_SIZE] at h ⊢
      omega)]
  · simp only [h, if_false]
    simp only [List.length_append, List.length_singleton] at h
    have h0 : tr.length + 1 - MAX_HISTORY_SIZE = 0 := by omega
    rw [h0, List.drop_zero]

theorem saveToHistory_index (st : Hist) (action script : List Char)
    (audioData : Option AudioData) (audioSegments : List AudioSegment) (now : ℚ) :
    (saveToHistory st action script audioData audioSegments now).historyIndex =
      ((saveToHistory st action script audioData audioSegments now).history.length : ℤ) - 1 := by
  rfl

theorem saveToHistory_length_le (st : Hist) (action script : List Char)
    (audioData : Option AudioData) (audioSegments : List AudioSegment) (now : ℚ) :
    (saveToHistory st action script audioData audioSegments now).history.length
      ≤ MAX_HISTORY_SIZE := by
  rw [saveToHistory_history]
  rw [List.length_append, List.length_singleton, List.length_drop]
  simp only [MAX_HISTORY_SIZE]
  omega

theorem saveToHistory_length_pos (st : Hist) (action script : List Char)
    (audioData : Option AudioData) (audioSegments : List AudioSegment) (now : ℚ) :
    1 ≤ (saveToHistory st action script audioData audioSegments now).history.length := by
  rw [saveToHistory_history]
  simp

/-! ### C4: bounded retention of the most recent snapshots -/

/-- The arguments of one saveToHistory call. -/
structure RecordInput where
  action : List Char
  script : List Char
  audioData : Option AudioData
  audioSegments : List AudioSegment
  now : ℚ
deriving DecidableEq, Repr, Inhabited

def recordStep (st : Hist) (i : RecordInput) : Hist :=
  saveToHistory st i.action i.script i.audioData i.audioSegments i.now

def snapOf (i : RecordInput) : HistoryState :=
  snapshotOf i.action i.script i.audioData i.audioSegments i.now

/-- The hook's initial state: empty history, pointer -1. -/
def emptyHist : Hist := ⟨[], -1⟩

/-- Invariant of repeated recording from the empty state: the history holds
the most recent MAX_HISTORY_SIZE snapshots in order and the pointer sits on
the newest entry. -/
theorem foldRecord_invariant (inputs : List RecordInput) :
    (inputs.foldl recordStep emptyHist).history
        = (inputs.map snapOf).drop (inputs.length - MAX_HISTORY_SIZE)
      ∧ (inputs.foldl recordStep emptyHist).historyIndex
        = (min inputs.length MAX_HISTORY_SIZE : ℤ) - 1 := by
  induction inputs using List.reverseRecOn with
  | nil => constructor <;> rfl
  | append_singleton l i ih =>
    obtain ⟨ihh, ihi⟩ := ih
    rw [List.foldl_append]
    simp only [List.foldl_cons, List.foldl_nil]
    set st := l.foldl recordStep emptyHist with hst
    have hlen : st.history.length = min l.length MAX_HISTORY_SIZE := by
      rw [ihh, List.length_drop, List.length_map]
      simp only [MAX_HISTORY_SIZE]
      omega
    have htake : st.history.take ((max 0 st.historyIndex).toNat + 1) = st.history := by
      apply List.take_of_length_le
      rw [hlen, ihi]
      simp only [MAX_HISTORY_SIZE]
      omega
    have hhist : (recordStep st i).history
        = st.history.drop (st.history.length + 1 - MAX_HISTORY_SIZE) ++ [snapOf i] := by
      rw [recordStep, saveToHistory_history, htake]
      rfl
    have key : st.history.drop (st.history.length + 1 - MAX_HISTORY_SIZE)
        = (List.map snapOf l).drop (l.length + 1 - MAX_HISTORY_SIZE) := by
      rw [hlen, ihh, List.drop_drop]
      congr 1
      simp only [MAX_HISTORY_SIZE]
      omega
    constructor
    · rw [hhist, key, List.map_append, List.length_append]
      simp only [List.map_cons, List.map_nil, List.length_singleton]
      rw [List.drop_append_of_le_length
        (by simp only [List.length_map, MAX_HISTORY_SIZE]; omega)]
    · have hlen2 : (recordStep st i).history.length
          = min (l.length + 1) MAX_HISTORY_SIZE := by
        rw [hhist, List.length_append, List.length_drop, List.length_singleton, hlen]
        simp only [MAX_HISTORY_SIZE]
        omega
      rw [recordStep, saveToHistory_index, ← recordStep, hlen2]
      simp only [List.length_append, List.length_singleton]
      push_cast
      ring

/-- C4: after more than 15 recordings from an empty history with no
intervening undo, the history has length exactly 15, holds the 15 most
recent snapshots in recording order, the pointer is on the newest entry;
and any one recording keeps only the entries up to the current pointer
(discarding the redo branch) before appending its snapshot. -/
theorem history_bounds (inputs : List RecordInput)
    (hN : MAX_HISTORY_SIZE < inputs.length) :
    (inputs.foldl recordStep emptyHist).history
        = (inputs.map snapOf).drop (inputs.length - MAX_HISTORY_SIZE)
      ∧ (inputs.foldl recordStep emptyHist).history.length = MAX_HISTORY_SIZE
      ∧ (inputs.foldl recordStep emptyHist).historyIndex = (MAX_HISTORY_SIZE : ℤ) - 1
      ∧ ∀ (st : Hist) (i : RecordInput),
          (recordStep st i).history =
            (let kept := st.history.take ((max 0 st.historyIndex).toNat + 1)
             kept.drop (kept.length + 1 - MAX_HISTORY_SIZE) ++ [snapOf i]) := by
  obtain ⟨hh, hi⟩ := foldRecord_invariant inputs
  refine ⟨hh, ?_, ?_, ?_⟩
  · rw [hh, List.length_drop, List.length_map]
    simp only [MAX_HISTORY_SIZE] at hN ⊢
    omega
  · rw [hi]
    simp only [MAX_HISTORY_SIZE] at hN ⊢
    omega
  · intro st i
    exact saveToHistory_history st i.action i.script i.audioData i.audioSegments i.now

/-- A concrete run of 16 recordings. -/
def sixteenInputs : List RecordInput :=
  (List.range 16).map (fun k => ⟨[], [], none, [], (k : ℚ)⟩)

/-- Witness for C4 at a concrete run of 16 recordings. -/
theorem history_bounds_witness :
    MAX_HISTORY_SIZE < sixteenInputs.length
      ∧ (sixteenInputs.foldl recordStep emptyHist).history.length = MAX_HISTORY_SIZE := by
  refine ⟨by decide, ?_⟩
  exact (history_bounds sixteenInputs (by decide)).2.1

/-! ### C5: undo/redo round trip -/

/-- Reading the two last elements of a list ending in [a, b]. -/
theorem getD_append_pair {α : Type} (P : List α) (a b d : α) :
    (P ++ [a, b]).getD P.length d = a ∧ (P ++ [a, b]).getD (P.length + 1) d = b := by
  constructor
  · rw [List.getD_eq_getElem?_getD, List.getElem?_append_right (Nat.le_refl _)]
    simp
  · rw [List.getD_eq_getElem?_getD, List.getElem?_append_right (Nat.le_succ_of_le (Nat.le_refl _))]
    simp

/-- After two records the history ends in the two snapshots, with the
pointer on the last. -/
theorem recordStep_twice_decomp (st0 : Hist) (i1 i2 : RecordInput) :
    ∃ P : List HistoryState,
      (recordStep (recordStep st0 i1) i2).history = P ++ [snapOf i1, snapOf i2]
        ∧ (recordStep (recordStep st0 i1) i2).historyIndex = (P.length : ℤ) + 1 := by
  set st1 := recordStep st0 i1 with hst1
  set st2 := recordStep st1 i2 with hst2
  have h1 : st1.history
      = (st0.history.take ((max 0 st0.historyIndex).toNat + 1)).drop
          ((st0.history.take ((max 0 st0.historyIndex).toNat + 1)).length + 1
            - MAX_HISTORY_SIZE)
        ++ [snapOf i1] :=
    saveToHistory_history st0 i1.action i1.script i1.audioData i1.audioSegments i1.now
  set pre1 := (st0.history.take ((max 0 st0.historyIndex).toNat + 1)).drop
    ((st0.history.take ((max 0 st0.historyIndex).toNat + 1)).length + 1
      - MAX_HISTORY_SIZE) with hpre1
  have hidx1 : st1.historyIndex = (st1.history.length : ℤ) - 1 :=
    saveToHistory_index st0 i1.action i1.script i1.audioData i1.audioSegments i1.now
  have hlen1le : st1.history.length ≤ MAX_HISTORY_SIZE :=
    saveToHistory_length_le st0 i1.action i1.script i1.audioData i1.audioSegments i1.now
  have hlen1 : st1.history.length = pre1.length + 1 := by
    rw [h1, List.length_append, List.length_singleton]
  have htake : st1.history.take ((max 0 st1.historyIndex).toNat + 1) = st1.history := by
    apply List.take_of_length_le
    rw [hidx1]
    omega
  have h2 : st2.history
      = st1.history.drop (st1.history.length + 1 - MAX_HISTORY_SIZE) ++ [snapOf i2] := by
    have := saveToHistory_history st1 i2.action i2.script i2.audioData i2.audioSegments i2.now
    rw [htake] at this
    exact this
  have hmle : st1.history.length + 1 - MAX_HISTORY_SIZE ≤ pre1.length := by
    simp only [MAX_HISTORY_SIZE] at hlen1le ⊢
    omega
  refine ⟨pre1.drop (pre1.length + 2 - MAX_HISTORY_SIZE), ?_, ?_⟩
  · rw [h2, h1]
    simp only [List.length_append, List.length_singleton]
    rw [List.drop_append_of_le_length
      (by simp only [MAX_HISTORY_SIZE] at hlen1le ⊢; omega)]
    have harith : pre1.length + 1 + 1 - MAX_HISTORY_SIZE
        = pre1.length + 2 - MAX_HISTORY_SIZE := by omega
    rw [harith, List.append_assoc]
    rfl
  · have hidx2 : st2.historyIndex = (st2.history.length : ℤ) - 1 :=
      saveToHistory_index st1 i2.action i2.script i2.audioData i2.audioSegments i2.now
    rw [hidx2, h2, h1]
    simp only [List.length_append, List.length_singleton, List.length_drop]
    simp only [MAX_HISTORY_SIZE] at hlen1le hlen1 ⊢
    omega

/-- C5: record(S1); record(S2); undo() returns a snapshot equal in value to
S1 and a following redo() returns S2; undo at the first entry (or empty
list) and redo at the last entry are failure no-ops. -/
theorem undo_redo_round_trip (st0 : Hist) (i1 i2 : RecordInput) :
    (undo (recordStep (recordStep st0 i1) i2)).1
        = some ⟨i1.script, i1.audioData, i1.audioSegments, i1.now, i1.action⟩
      ∧ (redo (undo (recordStep (recordStep st0 i1) i2)).2).1
        = some ⟨i2.script, i2.audioData, i2.audioSegments, i2.now, i2.action⟩
      ∧ (∀ st : Hist, st.historyIndex ≤ 0 → undo st = (none, st))
      ∧ (∀ st : Hist, (st.history.length : ℤ) - 1 ≤ st.historyIndex →
          redo st = (none, st)) := by
  obtain ⟨P, hh, hi⟩ := recordStep_twice_decomp st0 i1 i2
  set st2 := recordStep (recordStep st0 i1) i2 with hst2
  have hguard : ¬ st2.historyIndex ≤ 0 := by rw [hi]; omega
  have hu : undo st2 =
      (some (cloneHistoryState (st2.history.getD (st2.historyIndex - 1).toNat default)),
        ⟨st2.history, st2.historyIndex - 1⟩) := by
    rw [undo, if_neg hguard]
  have hnat1 : (st2.historyIndex - 1).toNat = P.length := by rw [hi]; omega
  have hnat2 : (st2.historyIndex - 1 + 1).toNat = P.length + 1 := by rw [hi]; omega
  refine ⟨?_, ?_, ?_, ?_⟩
  · rw [hu]
    simp only [hnat1, hh]
    rw [(getD_append_pair P (snapOf i1) (snapOf i2) default).1, cloneHistoryState_eq]
    rw [snapOf, snapshotOf_fields]
  · rw [hu]
    simp only []
    have hguard2 : ¬ ((Hist.mk st2.history (st2.historyIndex - 1)).history.length : ℤ) - 1
        ≤ (Hist.mk st2.history (st2.historyIndex - 1)).historyIndex := by
      simp only [hh, hi, List.length_append, List.length_cons, List.length_singleton,
        List.length_nil]
      push_cast
      omega
    rw [redo, if_neg hguard2]
    simp only [hnat2, hh]
    rw [(getD_append_pair P (snapOf i1) (snapOf i2) default).2, cloneHistoryState_eq]
    rw [snapOf, snapshotOf_fields]
  · intro st h
    rw [undo, if_pos h]
  · intro st h
    rw [redo, if_pos h]

/-- Witness for C5: the inner no-op clauses applied at a concrete state. -/
theorem undo_redo_round_trip_witness :
    (undo (recordStep (recordStep emptyHist ⟨[], ['a'], none, [], 1⟩)
        ⟨[], ['b'], none, [], 2⟩)).1
      = some ⟨['a'], none, [], 1, []⟩
    ∧ undo emptyHist = (none, emptyHist) := by
  constructor
  · exact (undo_redo_round_trip emptyHist ⟨[], ['a'], none, [], 1⟩
      ⟨[], ['b'], none, [], 2⟩).1
  · exact (undo_redo_round_trip emptyHist ⟨[], ['a'], none, [], 1⟩
      ⟨[], ['b'], none, [], 2⟩).2.2.1 emptyHist (by decide)

/-! ## Segment merge orchestrator: applied-segment list update
(src/app/page.tsx lines 1298-1310, src/unnamed/part_005 confirmMerge) -/

/-- Word ranges of a and b do not intersect. -/
def NonOverlap (a b : AudioSegment) : Prop :=
  a.endIndex ≤ b.startIndex ∨ b.endIndex ≤ a.startIndex

instance : DecidableRel NonOverlap := fun a b => by
  unfold NonOverlap; infer_instance

theorem nonOverlap_symm : ∀ {a b : AudioSegment}, NonOverlap a b → NonOverlap b a :=
  fun h => h.symm

/-- The JS sort comparator (a, b) => a.startIndex - b.startIndex as the
ascending order on segments. -/
def segLE (a b : AudioSegment) : Prop := a.startIndex ≤ b.startIndex

instance : DecidableRel segLE := fun a b => by unfold segLE; infer_instance

instance : IsTotal AudioSegment segLE := ⟨fun a b => le_total a.startIndex b.startIndex⟩

instance : IsTrans AudioSegment segLE := ⟨fun _ _ _ hab hbc => le_trans hab hbc⟩

/-- confirmMerge's applied-segment update: drop every existing segment whose
word range intersects the new one, append the new segment, sort ascending by
startIndex (JS Array.prototype.sort is stable; stable insertion sort models
it). -/
def confirmMergeSegments (prev : List AudioSegment) (newSegment : AudioSegment) :
    List AudioSegment :=
  let filtered := prev.filter
    (fun seg => seg.endIndex ≤ newSegment.startIndex || newSegment.endIndex ≤ seg.startIndex)
  (filtered ++ [newSegment]).insertionSort segLE

/-- C2: if the applied-segment list is pairwise non-overlapping before a
merge, then after confirmMerge's update it is again pairwise non-overlapping;
every surviving segment is either the new one or an old segment that did not
intersect it, the new segment is present, and the list is sorted by
startIndex. -/
theorem confirmMerge_invariant (prev : List AudioSegment) (newSegment : AudioSegment)
    (h : prev.Pairwise NonOverlap) :
    (confirmMergeSegments prev newSegment).Pairwise NonOverlap
      ∧ newSegment ∈ confirmMergeSegments prev newSegment
      ∧ (∀ s ∈ confirmMergeSegments prev newSegment,
          s = newSegment ∨ (s ∈ prev ∧ NonOverlap s newSegment))
      ∧ (confirmMergeSegments prev newSegment).Pairwise segLE := by
  unfold confirmMergeSegments
  set filtered := prev.filter
    (fun seg => seg.endIndex ≤ newSegment.startIndex || newSegment.endIndex ≤ seg.startIndex)
    with hfiltered
  have hperm : List.Perm ((filtered ++ [newSegment]).insertionSort segLE)
      (filtered ++ [newSegment]) :=
    List.perm_insertionSort segLE _
  have hmemfil : ∀ s ∈ filtered, s ∈ prev ∧ NonOverlap s newSegment := by
    intro s hs
    rw [hfiltered, List.mem_filter] at hs
    refine ⟨hs.1, ?_⟩
    have := hs.2
    simp only [Bool.or_eq_true, decide_eq_true_eq] at this
    exact this
  refine ⟨?_, ?_, ?_, ?_⟩
  · rw [hperm.pairwise_iff nonOverlap_symm]
    rw [List.pairwise_append]
    refine ⟨h.filter _, List.pairwise_singleton _ _, ?_⟩
    intro a ha b hb
    simp only [List.mem_singleton] at hb
    subst hb
    exact (hmemfil a ha).2
  · rw [List.mem_insertionSort]
    exact List.mem_append_right _ (List.mem_singleton_self _)
  · intro s hs
    rw [List.mem_insertionSort, List.mem_append] at hs
    rcases hs with hs | hs
    · exact Or.inr (hmemfil s hs)
    · exact Or.inl (List.mem_singleton.mp hs)
  · exact List.sorted_insertionSort segLE (filtered ++ [newSegment])

/-- Witness for C2 at the spec's overlap-eviction scenario: applied segments
with ranges [0,5) and [10,15), merging [3,12) evicts both. -/
def segOf (s e : ℤ) : AudioSegment := ⟨s, e, [], [], none, 0, 0, none, none, none⟩

theorem confirmMerge_invariant_witness :
    ([segOf 0 5, segOf 10 15].Pairwise NonOverlap)
      ∧ (confirmMergeSegments [segOf 0 5, segOf 10 15] (segOf 3 12)).Pairwise NonOverlap
      ∧ confirmMergeSegments [segOf 0 5, segOf 10 15] (segOf 3 12) = [segOf 3 12] := by
  refine ⟨by decide, ?_, by decide⟩
  exact (confirmMerge_invariant [segOf 0 5, segOf 10 15] (segOf 3 12) (by decide)).1

/-! ### C3: strict fallback order of the timing resolver -/

theorem getTimingByTextMatch_empty (tr : Option TranscriptData) :
    getTimingByTextMatch [] tr = none := by
  cases tr <;> rfl

theorem relaxedText_empty : relaxedText [] = [] := rfl

/-- C3: resolveTimingForSelection tries direct index range, exact token
sequence, substring text match, then relaxed-punctuation retry, in that
order, returning the first success; in particular whenever the direct
index-range strategy succeeds its window is returned. -/
theorem resolver_fallback_order (selectedText : List Char)
    (startWordIndex endWordIndex : ℤ) (scriptWords : List (List Char))
    (transcript : Option TranscriptData) :
    (∀ t, getWordRangeTimingFromTranscript startWordIndex endWordIndex transcript = some t →
        resolveTimingForSelection selectedText startWordIndex endWordIndex
          scriptWords transcript = some t)
      ∧ (getWordRangeTimingFromTranscript startWordIndex endWordIndex transcript = none →
          ∀ t, getTimingByTokenMatch scriptWords startWordIndex endWordIndex transcript
              = some t →
            resolveTimingForSelection selectedText startWordIndex endWordIndex
              scriptWords transcript = some t)
      ∧ (getWordRangeTimingFromTranscript startWordIndex endWordIndex transcript = none →
          getTimingByTokenMatch scriptWords startWordIndex endWordIndex transcript = none →
          ∀ t, getTimingByTextMatch selectedText transcript = some t →
            resolveTimingForSelection selectedText startWordIndex endWordIndex
              scriptWords transcript = some t)
      ∧ (getWordRangeTimingFromTranscript startWordIndex endWordIndex transcript = none →
          getTimingByTokenMatch scriptWords startWordIndex endWordIndex transcript = none →
          getTimingByTextMatch selectedText transcript = none →
            resolveTimingForSelection selectedText startWordIndex endWordIndex
              scriptWords transcript
              = getTimingByTextMatch (relaxedText selectedText) transcript) := by
  refine ⟨?_, ?_, ?_, ?_⟩
  · intro t h1
    simp only [resolveTimingForSelection, h1]
  · intro h1 t h2
    simp only [resolveTimingForSelection, h1, h2]
  · intro h1 h2 t h3
    simp only [resolveTimingForSelection, h1, h2, h3]
  · intro h1 h2 h3
    simp only [resolveTimingForSelection, h1, h2, h3]
    by_cases he : selectedText.isEmpty
    · have : selectedText = [] := by
        cases selectedText with
        | nil => rfl
        | cons c cs => simp [List.isEmpty] at he
      rw [this, relaxedText_empty, getTimingByTextMatch_empty]
      simp
    · simp [he]

/-- The spec's exact-match scenario transcript: lexical words
the/quick/brown/fox/jumps at 0.2-second steps. -/
def fiveWordTranscript : TranscriptData :=
  ⟨[], 1, ['t', 'h', 'e'],
    [⟨['t', 'h', 'e'], 0, 1/5, wordLit, [], 0⟩,
     ⟨['q', 'u', 'i', 'c', 'k'], 1/5, 2/5, wordLit, [], 0⟩,
     ⟨['b', 'r', 'o', 'w', 'n'], 2/5, 3/5, wordLit, [], 0⟩,
     ⟨['f', 'o', 'x'], 3/5, 4/5, wordLit, [], 0⟩,
     ⟨['j', 'u', 'm', 'p', 's'], 4/5, 1, wordLit, [], 0⟩]⟩

/-- Witness for C3: resolving range [1,3) on the five-word transcript
returns the direct-index window 0.2..0.6. -/
theorem resolver_fallback_order_witness :
    getWordRangeTimingFromTranscript 1 3 (some fiveWordTranscript) = some ⟨1/5, 3/5⟩
      ∧ resolveTimingForSelection ['q'] 1 3 [] (some fiveWordTranscript)
        = some ⟨1/5, 3/5⟩ := by
  refine ⟨by decide, ?_⟩
  exact (resolver_fallback_order ['q'] 1 3 [] (some fiveWordTranscript)).1
    ⟨1/5, 3/5⟩ (by decide)

/-! ### C7: total resolution failure returns failure, never a guess -/

/-- C7: when every strategy fails, the resolver returns none; and matching
only ever sees nonempty normalized tokens (empty tokens are filtered out,
never used as wildcards). -/
theorem resolver_total_failure (selectedText : List Char)
    (startWordIndex endWordIndex : ℤ) (scriptWords : List (List Char))
    (transcript : Option TranscriptData)
    (h1 : getWordRangeTimingFromTranscript startWordIndex endWordIndex transcript = none)
    (h2 : getTimingByTokenMatch scriptWords startWordIndex endWordIndex transcript = none)
    (h3 : getTimingByTextMatch selectedText transcript = none)
    (h4 : getTimingByTextMatch (relaxedText selectedText) transcript = none) :
    resolveTimingForSelection selectedText startWordIndex endWordIndex
        scriptWords transcript = none
      ∧ (∀ w ∈ getTranscriptLexicalWords transcript, w.text ≠ [])
      ∧ (∀ tok ∈ ((jsSlice scriptWords startWordIndex endWordIndex).map
            normalizeToken).filter (fun t => !t.isEmpty), tok ≠ []) := by
  refine ⟨?_, ?_, ?_⟩
  · rw [(resolver_fallback_order selectedText startWordIndex endWordIndex
      scriptWords transcript).2.2.2 h1 h2 h3]
    exact h4
  · intro w hw
    cases transcript with
    | none => simp [getTranscriptLexicalWords] at hw
    | some t =>
      have := List.of_mem_filter hw
      simp only [Bool.not_eq_true'] at this
      intro hcontra
      rw [hcontra] at this
      simp at this
  · intro tok htok
    have := List.of_mem_filter htok
    simp only [Bool.not_eq_true'] at this
    intro hcontra
    rw [hcontra] at this
    simp at this

/-- Witness for C7: an out-of-range index pair with a selection absent from
the transcript fails all strategies and resolves to none. -/
theorem resolver_total_failure_witness :
    resolveTimingForSelection ['z', 'e', 'b', 'r', 'a'] 99 100
        [['z', 'e', 'b', 'r', 'a']] (some fiveWordTranscript) = none := by
  exact (resolver_total_failure ['z', 'e', 'b', 'r', 'a'] 99 100
    [['z', 'e', 'b', 'r', 'a']] (some fiveWordTranscript)
    (by decide) (by decide) (by decide) (by decide)).1

/-! ## Alignment engine (src/lib/types.ts lines 74-147) -/

/-- src/lib/types.ts WordAlignment. -/
structure WordAlignment where
  scriptToTranscript : List ℤ
  transcriptToScript : List ℤ
deriving DecidableEq, Repr, Inhabited

/-- The inner while loop of the greedy pass: first transcript index at or
after tCursor whose token equals the script token. -/
def findFrom (lex : List LexWord) (token : List Char) (tCursor : ℕ) : Option ℕ :=
  match (lex.drop tCursor).findIdx? (fun w => w.text == token) with
  | none => none
  | some k => some (tCursor + k)

/-- The greedy forward pass of buildScriptTranscriptAlignment: for each
script token in order, scan the transcript cursor forward to a matching
token; on a match record the index and advance the cursor past it; an empty
token is skipped (entry -1, cursor unchanged); when the scan exhausts the
transcript the loop breaks and every remaining entry stays -1. -/
def greedyGo (scriptTokens : List (List Char)) (lex : List LexWord) (tCursor : ℕ) :
    List ℤ :=
  match scriptTokens with
  | [] => []
  | token :: rest =>
    if token.isEmpty then (-1) :: greedyGo rest lex tCursor
    else
      match findFrom lex token tCursor with
      | some idx => (idx : ℤ) :: greedyGo rest lex (idx + 1)
      | none => (token :: rest).map (fun _ => (-1 : ℤ))

/-- The distance heuristic of the rescue pass. -/
def rescueDist (sIdx sLen k tLen : ℕ) : ℕ :=
  min sIdx (sLen - 1 - sIdx) + min k (tLen - 1 - k)

/-- The rescue pass search: scan every transcript index, keep the first
strictly-smaller-distance match. -/
def rescueFind (lex : List LexWord) (token : List Char) (sIdx sLen : ℕ) : Option ℕ :=
  (List.range lex.length).foldl
    (fun best k =>
      if (lex.getD k default).text == token then
        match best with
        | none => some k
        | some b =>
          if rescueDist sIdx sLen k lex.length < rescueDist sIdx sLen b lex.length then
            some k
          else best
      else best)
    none

/-- The scriptToTranscript entry after the rescue pass: entries assigned by
the greedy pass are kept; unassigned entries with a nonempty token get the
rescue result. -/
def rescuedEntry (lex : List LexWord) (scriptTokens : List (List Char))
    (greedy : List ℤ) (sIdx : ℕ) : ℤ :=
  let v := greedy.getD sIdx (-1)
  if v = -1 then
    let token := scriptTokens.getD sIdx []
    if token.isEmpty then v
    else
      match rescueFind lex token sIdx scriptTokens.length with
      | some k => (k : ℤ)
      | none => -1
  else v

/-- First-claim-wins update of transcriptToScript. -/
def claimIndex (t2s : List ℤ) (tIdx sIdx : ℕ) : List ℤ :=
  if t2s.getD tIdx (-1) = -1 then t2s.set tIdx (sIdx : ℤ) else t2s

/-- buildScriptTranscriptAlignment (src/lib/types.ts lines 84-147): greedy
monotonic pass, then the global rescue pass for unmatched script words.  The
reverse map records, in pass order, the first script index claiming each
transcript index. -/
def buildScriptTranscriptAlignment (scriptWords : List (List Char))
    (transcript : Option TranscriptData) : WordAlignment :=
  let lex := getTranscriptLexicalWords transcript
  let scriptTokens := scriptWords.map normalizeToken
  let greedy := greedyGo scriptTokens lex 0
  let s2t := (List.range scriptTokens.length).map (rescuedEntry lex scriptTokens greedy)
  let t2s0 : List ℤ := (List.range lex.length).map (fun _ => (-1 : ℤ))
  let t2s1 := (List.range scriptTokens.length).foldl
    (fun acc sIdx =>
      match greedy.getD sIdx (-1) with
      | Int.ofNat tIdx => claimIndex acc tIdx sIdx
      | _ => acc) t2s0
  let t2s := (List.range scriptTokens.length).foldl
    (fun acc sIdx =>
      if greedy.getD sIdx (-1) = -1 then
        match rescuedEntry lex scriptTokens greedy sIdx with
        | Int.ofNat tIdx => claimIndex acc tIdx sIdx
        | _ => acc
      else acc) t2s1
  ⟨s2t, t2s⟩

/-! ### C9: strict monotonicity of the greedy pass -/

theorem findFrom_ge (lex : List LexWord) (token : List Char) (tCursor idx : ℕ)
    (h : findFrom lex token tCursor = some idx) : tCursor ≤ idx := by
  unfold findFrom at h
  cases hf : ((lex.drop tCursor).findIdx? (fun w => w.text == token)) with
  | none => rw [hf] at h; exact absurd h (by simp)
  | some k =>
    rw [hf] at h
    simp only [Option.some.injEq] at h
    omega

/-- Values assigned by the greedy pass starting at cursor c are at least c,
and assigned values are strictly increasing along the script. -/
theorem greedyGo_mono (scriptTokens : List (List Char)) (lex : List LexWord)
    (tCursor : ℕ) :
    (∀ k, (greedyGo scriptTokens lex tCursor).getD k (-1) ≠ -1 →
        (tCursor : ℤ) ≤ (greedyGo scriptTokens lex tCursor).getD k (-1))
      ∧ (∀ i j, i < j →
          (greedyGo scriptTokens lex tCursor).getD i (-1) ≠ -1 →
          (greedyGo scriptTokens lex tCursor).getD j (-1) ≠ -1 →
          (greedyGo scriptTokens lex tCursor).getD i (-1) <
            (greedyGo scriptTokens lex tCursor).getD j (-1)) := by
  induction scriptTokens generalizing tCursor with
  | nil =>
    constructor
    · intro k h; simp [greedyGo] at h
    · intro i j _ h; simp [greedyGo] at h
  | cons token rest ih =>
    by_cases hemp : token.isEmpty
    · have hg : greedyGo (token :: rest) lex tCursor = (-1) :: greedyGo rest lex tCursor := by
        rw [greedyGo, if_pos hemp]
      constructor
      · intro k hk
        rw [hg] at hk ⊢
        cases k with
        | zero => simp [List.getD] at hk
        | succ k' =>
          simp only [List.getD_cons_succ] at hk ⊢
          exact (ih tCursor).1 k' hk
      · intro i j hij hi hj
        rw [hg] at hi hj ⊢
        cases i with
        | zero => simp [List.getD] at hi
        | succ i' =>
          cases j with
          | zero => omega
          | succ j' =>
            simp only [List.getD_cons_succ] at hi hj ⊢
            exact (ih tCursor).2 i' j' (by omega) hi hj
    · cases hf : findFrom lex token tCursor with
      | none =>
        have hg : greedyGo (token :: rest) lex tCursor
            = (token :: rest).map (fun _ => (-1 : ℤ)) := by
          rw [greedyGo, if_neg hemp, hf]
        constructor
        · intro k hk
          rw [hg] at hk
          exfalso
          apply hk
          rcases Nat.lt_or_ge k ((token :: rest).map (fun _ => (-1 : ℤ))).length with hlt | hge
          · rw [List.getD_eq_getElem _ _ hlt]
            simp only [List.getElem_map]
          · exact List.getD_eq_default _ _ hge
        · intro i j _ hi _
          rw [hg] at hi
          exfalso
          apply hi
          rcases Nat.lt_or_ge i ((token :: rest).map (fun _ => (-1 : ℤ))).length with hlt | hge
          · rw [List.getD_eq_getElem _ _ hlt]
            simp only [List.getElem_map]
          · exact List.getD_eq_default _ _ hge
      | some idx =>
        have hg : greedyGo (token :: rest) lex tCursor
            = (idx : ℤ) :: greedyGo rest lex (idx + 1) := by
          rw [greedyGo, if_neg hemp, hf]
        have hcur : tCursor ≤ idx := findFrom_ge lex token tCursor idx hf
        constructor
        · intro k hk
          rw [hg] at hk ⊢
          cases k with
          | zero => simp [List.getD]; omega
          | succ k' =>
            simp only [List.getD_cons_succ] at hk ⊢
            have := (ih (idx + 1)).1 k' hk
            omega
        · intro i j hij hi hj
          rw [hg] at hi hj ⊢
          cases i with
          | zero =>
            cases j with
            | zero => omega
            | succ j' =>
              simp only [List.getD_cons_zero, List.getD_cons_succ] at hj ⊢
              have := (ih (idx + 1)).1 j' hj
              omega
          | succ i' =>
            cases j with
            | zero => omega
            | succ j' =>
              simp only [List.getD_cons_succ] at hi hj ⊢
              exact (ih (idx + 1)).2 i' j' (by omega) hi hj

theorem greedyGo_length (scriptTokens : List (List Char)) (lex : List LexWord)
    (tCursor : ℕ) :
    (greedyGo scriptTokens lex tCursor).length = scriptTokens.length := by
  induction scriptTokens generalizing tCursor with
  | nil => rfl
  | cons token rest ih =>
    by_cases hemp : token.isEmpty
    · rw [greedyGo, if_pos hemp]
      simp [ih]
    · cases hf : findFrom lex token tCursor with
      | none => rw [greedyGo, if_neg hemp, hf]; simp
      | some idx => rw [greedyGo, if_neg hemp, hf]; simp [ih]

/-- The rescue pass keeps every entry the greedy pass assigned. -/
theorem rescuedEntry_of_assigned (lex : List LexWord) (scriptTokens : List (List Char))
    (greedy : List ℤ) (sIdx : ℕ) (h : greedy.getD sIdx (-1) ≠ -1) :
    rescuedEntry lex scriptTokens greedy sIdx = greedy.getD sIdx (-1) := by
  simp only [rescuedEntry, List.getD_eq_getElem?_getD] at h ⊢
  rw [if_neg h]

/-- C9: strict monotonicity of the greedy portion of the alignment: if the
greedy pass assigned script indices i < j, then the final scriptToTranscript
entries at i and j are the greedy values and satisfy map(i) < map(j). -/
theorem alignment_greedy_monotone (scriptWords : List (List Char))
    (transcript : Option TranscriptData) (i j : ℕ) (hij : i < j)
    (hj : j < scriptWords.length)
    (hgi : (greedyGo (scriptWords.map normalizeToken)
        (getTranscriptLexicalWords transcript) 0).getD i (-1) ≠ -1)
    (hgj : (greedyGo (scriptWords.map normalizeToken)
        (getTranscriptLexicalWords transcript) 0).getD j (-1) ≠ -1) :
    (buildScriptTranscriptAlignment scriptWords transcript).scriptToTranscript.getD i (-1)
      < (buildScriptTranscriptAlignment scriptWords transcript).scriptToTranscript.getD
          j (-1) := by
  set lex := getTranscriptLexicalWords transcript with hlex
  set scriptTokens := scriptWords.map normalizeToken with htoks
  set greedy := greedyGo scriptTokens lex 0 with hgreedy
  have hslen : scriptTokens.length = scriptWords.length := List.length_map _ _
  have hs2t : (buildScriptTranscriptAlignment scriptWords transcript).scriptToTranscript
      = (List.range scriptTokens.length).map (rescuedEntry lex scriptTokens greedy) := rfl
  have hgetD : ∀ k, k < scriptTokens.length →
      ((List.range scriptTokens.length).map (rescuedEntry lex scriptTokens greedy)).getD
          k (-1)
        = rescuedEntry lex scriptTokens greedy k := by
    intro k hk
    rw [List.getD_eq_getElem _ _ (by simpa using hk)]
    simp
  rw [hs2t, hgetD i (by omega), hgetD j (by omega),
    rescuedEntry_of_assigned lex scriptTokens greedy i hgi,
    rescuedEntry_of_assigned lex scriptTokens greedy j hgj]
  exact (greedyGo_mono scriptTokens lex 0).2 i j hij hgi hgj

/-- Witness for C9: concrete two-word script aligned against a two-word
transcript; the greedy pass maps 0 ↦ 0 and 1 ↦ 1. -/
def twoWordTranscript : TranscriptData :=
  ⟨[], 1, [],
    [⟨['h', 'i'], 0, 1, wordLit, [], 0⟩,
     ⟨['y', 'o', 'u'], 1, 2, wordLit, [], 0⟩]⟩

theorem alignment_greedy_monotone_witness :
    (buildScriptTranscriptAlignment [['h', 'i'], ['y', 'o', 'u']]
        (some twoWordTranscript)).scriptToTranscript.getD 0 (-1)
      < (buildScriptTranscriptAlignment [['h', 'i'], ['y', 'o', 'u']]
          (some twoWordTranscript)).scriptToTranscript.getD 1 (-1) := by
  exact alignment_greedy_monotone [['h', 'i'], ['y', 'o', 'u']]
    (some twoWordTranscript) 0 1 (by omega) (by decide) (by decide) (by decide)

/-! ## Audio splicer (src/app/page.tsx CrunkerAudioEditor, lines 907-1170)

An AudioBuffer is modelled as one channel of samples (the source runs the
same loop on every channel) together with its sample rate.  WAV encode and
decode (crunker export / decodeAudioData) are sample-preserving and are the
identity in the model. -/

structure AudioBufM where
  sampleRate : ℚ
  data : List ℚ
deriving DecidableEq, Repr, Inhabited

/-- AudioBuffer.duration = length / sampleRate. -/
def AudioBufM.duration (b : AudioBufM) : ℚ := (b.data.length : ℚ) / b.sampleRate

/-- Float32Array.prototype.subarray (clamped half-open slice). -/
def subarray (l : List ℚ) (s e : ℕ) : List ℚ := (l.take e).drop s

/-- extractSegment (lines 967-1000): round to sample indices, clamp, copy
with zero fill past the end; a 1-sample silent buffer when empty. -/
def extractSegment (buffer : AudioBufM) (startTime endTime : ℚ) : AudioBufM :=
  let sampleRate := buffer.sampleRate
  let startSample := (max 0 (jsRound (startTime * sampleRate))).toNat
  let endSample := (max (startSample : ℤ)
    (min (buffer.data.length : ℤ) (jsRound (endTime * sampleRate)))).toNat
  let segmentLength := endSample - startSample
  if segmentLength = 0 then ⟨sampleRate, [0]⟩
  else
    ⟨sampleRate, (List.range segmentLength).map (fun i =>
      if startSample + i < buffer.data.length then buffer.data.getD (startSample + i) 0
      else 0)⟩

/-- The RMS-window threshold test of trimSilence (lines 1011-1025) for the
fixed -45 dB threshold of the call site: with rms = sqrt(sumSq/count),
rms < 10^(-45/20) iff (sumSq/count)^2 * 10^9 < 1 (both sides nonnegative,
squared twice to stay rational). An empty window has rms 0, below threshold. -/
def rmsBelowThresh (buffer : AudioBufM) (windowSize : ℕ) (index : ℤ) : Bool :=
  let len := buffer.data.length
  let startI := max 0 index
  let endI := min (len : ℤ) (index + windowSize)
  if endI ≤ startI then true
  else
    let count := (endI - startI).toNat
    let sumSq := ((List.range count).map (fun i =>
      let v := buffer.data.getD (startI.toNat + i) 0
      v * v)).sum
    decide ((sumSq / count) ^ 2 * 1000000000 < 1)

/-- The leading-silence scan of trimSilence: advance by windowSize while the
window at startIdx is silent.  Fuel-indexed (len + 1 steps suffice since
windowSize ≥ 1). -/
def trimStartLoop (buffer : AudioBufM) (windowSize : ℕ) :
    ℕ → ℤ → ℤ
  | 0, startIdx => startIdx
  | fuel + 1, startIdx =>
    if startIdx < (buffer.data.length : ℤ) ∧ rmsBelowThresh buffer windowSize startIdx then
      trimStartLoop buffer windowSize fuel (startIdx + windowSize)
    else startIdx

/-- The trailing-silence scan of trimSilence. -/
def trimEndLoop (buffer : AudioBufM) (windowSize : ℕ) (startIdx : ℤ) :
    ℕ → ℤ → ℤ
  | 0, endIdx => endIdx
  | fuel + 1, endIdx =>
    if startIdx < endIdx ∧ rmsBelowThresh buffer windowSize (endIdx - windowSize) then
      trimEndLoop buffer windowSize startIdx fuel (endIdx - windowSize)
    else endIdx

/-- trimSilence (lines 1003-1044) at its fixed -45 dB threshold: find the
first and last above-threshold windows, keep a half-window margin, copy that
range (zeros when empty). -/
def trimSilence (buffer : AudioBufM) (windowMs : ℚ) : AudioBufM :=
  let sampleRate := buffer.sampleRate
  let windowSize := (max 1 (jsFloor ((windowMs / 1000) * sampleRate))).toNat
  let len := buffer.data.length
  let startIdx0 := trimStartLoop buffer windowSize (len + 1) 0
  let endIdx0 := trimEndLoop buffer windowSize startIdx0 (len + 1) (len : ℤ)
  let startIdx := max 0 (startIdx0 - (windowSize / 2 : ℕ))
  let endIdx := min (len : ℤ) (endIdx0 + (windowSize / 2 : ℕ))
  let trimmedLen := (max 1 (endIdx - startIdx)).toNat
  let seg := subarray buffer.data startIdx.toNat endIdx.toNat
  ⟨sampleRate, seg ++ List.replicate (trimmedLen - seg.length) 0⟩

/-- applyMicroFades (lines 1047-1058): linear fade-in over the first
fadeCount samples and fade-out over the last fadeCount samples, in place. -/
def applyMicroFades (buffer : AudioBufM) (fadeSec : ℚ) : AudioBufM :=
  let sampleRate := buffer.sampleRate
  let fadeSamples := (max 1 (jsFloor (fadeSec * sampleRate))).toNat
  let len := buffer.data.length
  let fadeCount := min fadeSamples len
  ⟨sampleRate, (List.range len).map (fun j =>
    let v := buffer.data.getD j 0
    let v1 := if j < fadeCount then v * ((j : ℚ) / (fadeCount : ℕ)) else v
    if len - 1 - j < fadeCount then v1 * (((len - 1 - j : ℕ) : ℚ) / (fadeCount : ℕ))
    else v1)⟩

/-- buildRoomTone (lines 1061-1081): concatenate the extracts just before
and just after the splice window, attenuated by 0.2. -/
def buildRoomTone (original : AudioBufM) (startTime endTime totalSec : ℚ) : AudioBufM :=
  let sampleRate := original.sampleRate
  let grabSec := min 0.05 (max 0.01 (totalSec / 2))
  let before := max 0 (startTime - grabSec)
  let after := min original.duration (endTime + grabSec)
  let beforeSeg := extractSegment original before startTime
  let afterSeg := extractSegment original endTime after
  let base := beforeSeg.data ++ afterSeg.data
  ⟨sampleRate, if base.length = 0 then [0] else base.map (fun v => v * 0.2)⟩

/-- The room-tone padding loop of fitToLength (lines 1110-1135): each
iteration crossfades the existing tail into a chunk of room tone and writes
the rest of the chunk; fuel-indexed (take ≥ 1 per iteration, so targetLen
steps suffice). List writes beyond the list length are dropped, as typed
array writes are in JS. -/
def padLoop (tone : List ℚ) (origLen chunk cross targetLen : ℕ) :
    ℕ → List ℚ → ℕ → List ℚ
  | 0, out, _ => out
  | fuel + 1, out, writePos =>
    if targetLen ≤ writePos then out
    else
      let takeN := min chunk (targetLen - writePos)
      let startIdx := (writePos - origLen) % max 1 tone.length
      let overlap := min cross writePos
      let out1 := (List.range overlap).foldl (fun (o : List ℚ) (i : ℕ) =>
        let t := (i : ℚ) / ((max 1 overlap : ℕ) : ℚ)
        let dstIdx := writePos - overlap + i
        let newSample := tone.getD ((startIdx + i) % tone.length) 0
        o.set dstIdx (o.getD dstIdx 0 * (1 - t) + newSample * t)) out
      let out2 := (List.range (takeN - overlap)).foldl (fun (o : List ℚ) (k : ℕ) =>
        let i := overlap + k
        let src := tone.getD ((startIdx + i) % tone.length) 0
        o.set (writePos + (i - overlap)) src) out1
      padLoop tone origLen chunk cross targetLen fuel out2 (writePos + takeN)

/-- fitToLength (lines 1084-1137): return unchanged at the exact target
length, crop the tail with fades when longer, loop room tone with small
crossfades when shorter. -/
def fitToLength (buffer : AudioBufM) (targetSec : ℚ) (roomTone : AudioBufM) : AudioBufM :=
  let sr := buffer.sampleRate
  let targetLen := (max 1 (jsFloor (targetSec * sr))).toNat
  if buffer.data.length = targetLen then buffer
  else if targetLen < buffer.data.length then
    applyMicroFades ⟨sr, buffer.data.take targetLen⟩ 0.008
  else
    let chunk := max 128 (min roomTone.data.length (jsFloor (0.02 * sr)).toNat)
    let cross := max 8 (jsFloor (0.005 * sr)).toNat
    let init := buffer.data ++ List.replicate (targetLen - buffer.data.length) 0
    let final := padLoop roomTone.data buffer.data.length chunk cross targetLen
      targetLen init buffer.data.length
    applyMicroFades ⟨sr, final⟩ 0.008

/-- crossfadeConcat (lines 1140-1162): copy a up to the crossfade region,
blend cross samples, then the rest of b.  (At both call sites crossMs is
0.01, giving cross = 0 samples for any sample rate below 100000: the /1000
scaling makes the intended 10 ms crossfade a zero-sample one.) -/
def crossfadeConcat (a b : AudioBufM) (crossMs : ℚ) : AudioBufM :=
  let sr := a.sampleRate
  let cross := (max 0 (jsFloor ((crossMs / 1000) * sr))).toNat
  let outLen := max 1 (a.data.length + b.data.length - cross)
  ⟨sr, (List.range outLen).map (fun j =>
    if j < a.data.length - cross then a.data.getD j 0
    else if j < a.data.length then
      let i := j - (a.data.length - cross)
      let t := (i : ℚ) / ((max 1 cross : ℕ) : ℚ)
      a.data.getD j 0 * (1 - t) + b.data.getD i 0 * t
    else if j - a.data.length + cross < b.data.length then
      b.data.getD (j - a.data.length + cross) 0
    else 0)⟩

/-- replaceAudioSegment (lines 915-965): clamp the splice window, extract
before/after (1-sample silent placeholder at an empty side), trim silence
from the replacement, micro-fade it, length-fit to the exact window using
room tone, and join with crossfadeConcat. -/
def replaceAudioSegment (original newSegment0 : AudioBufM)
    (startTime endTime : ℚ) : AudioBufM :=
  let clampedStartTime := max 0 (min startTime original.duration)
  let clampedEndTime := max clampedStartTime (min endTime original.duration)
  let targetLengthSec := max 0 (clampedEndTime - clampedStartTime)
  let beforeBuffer :=
    if 0 < clampedStartTime then extractSegment original 0 clampedStartTime
    else ⟨original.sampleRate, [0]⟩
  let afterBuffer :=
    if clampedEndTime < original.duration then
      extractSegment original clampedEndTime original.duration
    else ⟨original.sampleRate, [0]⟩
  let newSegment1 := trimSilence newSegment0 8
  let newSegment2 := applyMicroFades newSegment1 0.008
  let roomTone := buildRoomTone original clampedStartTime clampedEndTime 0.05
  let fittedNew := fitToLength newSegment2 targetLengthSec roomTone
  let crossMs := 0.01
  let beforeJoined := crossfadeConcat beforeBuffer fittedNew crossMs
  crossfadeConcat beforeJoined afterBuffer crossMs

/-! ## Per-word retiming (src/app/page.tsx retimeSegmentToOriginalWindow,
lines 436-522) -/

/-- extractSlice inside retimeSegmentToOriginalWindow (lines 463-472):
floor to sample indices, subarray copy into a buffer of at least one
sample. -/
def extractSlice (newBuffer : AudioBufM) (startSec endSec : ℚ) : AudioBufM :=
  let sampleRate := newBuffer.sampleRate
  let s := (max 0 (jsFloor (startSec * sampleRate))).toNat
  let e := (max (s : ℤ) (jsFloor (endSec * sampleRate))).toNat
  let len := max 1 (e - s)
  let seg := subarray newBuffer.data s e
  ⟨sampleRate, seg ++ List.replicate (len - seg.length) 0⟩

/-- timeScale (lines 474-488): resample a word slice to the target duration
via an offline context of exactly targetLen frames.  When the length already
matches, the slice is returned untouched; otherwise only the frame count of
the rendered buffer is modelled (the playback-rate resampled sample values
are opaque and modelled as silence). -/
def timeScale (slice : AudioBufM) (targetSec : ℚ) : AudioBufM :=
  let sampleRate := slice.sampleRate
  let targetLen := (max 1 (jsFloor (targetSec * sampleRate))).toNat
  if targetLen = slice.data.length then slice
  else ⟨sampleRate, List.replicate targetLen 0⟩

/-- retimeSegmentToOriginalWindow (lines 436-522): per-word retiming is
attempted only when the normalized token sequences of the replacement clip
and of the replaced window agree exactly; on missing transcripts, empty word
lists, any count/order disagreement, or an out-of-bounds word access (which
throws in the source and is caught) it returns none.  On success the output
is the concatenation of the per-word retimed slices with the original
inter-word gaps as silence. -/
def retimeSegmentToOriginalWindow (newBuffer : AudioBufM)
    (regenerated original : Option TranscriptData)
    (startWordIndex endWordIndex : ℤ) : Option AudioBufM :=
  match regenerated, original with
  | some regen, some orig =>
    let srcWords := regen.words
    let tgtWords := jsSlice orig.words startWordIndex (max startWordIndex endWordIndex)
    if srcWords.length = 0 ∨ tgtWords.length = 0 then none
    else
      let srcTokens := (srcWords.map (fun w => normalizeToken w.text)).filter
        (fun t => !t.isEmpty)
      let tgtTokens := (tgtWords.map (fun w => normalizeToken w.text)).filter
        (fun t => !t.isEmpty)
      if srcTokens.length ≠ tgtTokens.length then none
      else if srcTokens ≠ tgtTokens then none
      else if srcWords.length < tgtWords.length then none
      else
        let sampleRate := newBuffer.sampleRate
        let pieces := (List.range tgtWords.length).map (fun i =>
          let srcW := srcWords.getD i default
          let tgtW := tgtWords.getD i default
          let srcSlice := extractSlice newBuffer srcW.start srcW.end_
          let targetDur := max 0 (tgtW.end_ - tgtW.start)
          let retimed := timeScale srcSlice targetDur
          let nextTgtStart :=
            if i < tgtWords.length - 1 then (tgtWords.getD (i + 1) default).start
            else tgtW.end_
          let gapSec := max 0 (nextTgtStart - tgtW.end_)
          (retimed, (jsFloor (gapSec * sampleRate)).toNat))
        let totalSamples : ℕ := pieces.foldl (fun acc p => acc + p.1.data.length + p.2) 0
        let outData : List ℚ := pieces.foldl
          (fun acc p => acc ++ p.1.data ++ List.replicate p.2 0) []
        some ⟨sampleRate, if totalSamples = 0 then [0] else outData⟩
  | _, _ => none

/-- The caller's fallback (createMergedFromCurrent, page.tsx lines
1355-1371): the replacement used for the splice is the retimed buffer when
retiming succeeded and the segment's own audio otherwise; no error path
exists for a failed retime. -/
def chooseReplacementBuffer (segBuf : AudioBufM) (retimed : Option AudioBufM) :
    AudioBufM :=
  match retimed with
  | some rt => rt
  | none => segBuf

/-! ### C8: per-word retiming is all-or-nothing -/

/-- C8: retimeSegmentToOriginalWindow produces a buffer exactly when both
transcripts are present, both word lists are nonempty, the normalized token
sequences agree one-to-one, and the per-word loop stays in bounds; in every
other case it returns none, and the caller then uses the segment's own
audio for the uniform length-fit splice (no error path exists). -/
theorem retime_all_or_nothing (newBuffer : AudioBufM) (regen orig : TranscriptData)
    (startWordIndex endWordIndex : ℤ) :
    ((retimeSegmentToOriginalWindow newBuffer (some regen) (some orig)
        startWordIndex endWordIndex).isSome ↔
      (regen.words.length ≠ 0
        ∧ (jsSlice orig.words startWordIndex (max startWordIndex endWordIndex)).length ≠ 0
        ∧ (regen.words.map (fun w => normalizeToken w.text)).filter (fun t => !t.isEmpty)
            = ((jsSlice orig.words startWordIndex (max startWordIndex endWordIndex)).map
                (fun w => normalizeToken w.text)).filter (fun t => !t.isEmpty)
        ∧ (jsSlice orig.words startWordIndex (max startWordIndex endWordIndex)).length
            ≤ regen.words.length))
      ∧ retimeSegmentToOriginalWindow newBuffer none (some orig)
          startWordIndex endWordIndex = none
      ∧ retimeSegmentToOriginalWindow newBuffer (some regen) none
          startWordIndex endWordIndex = none
      ∧ retimeSegmentToOriginalWindow newBuffer none none
          startWordIndex endWordIndex = none
      ∧ (∀ segBuf : AudioBufM,
          chooseReplacementBuffer segBuf none = segBuf
            ∧ ∀ rtb : AudioBufM, chooseReplacementBuffer segBuf (some rtb) = rtb) := by
  refine ⟨?_, rfl, rfl, rfl, fun segBuf => ⟨rfl, fun rtb => rfl⟩⟩
  simp only [retimeSegmentToOriginalWindow]
  split_ifs with h1 h2 h3 h4 h5
  · simp only [Option.isSome_none, Bool.false_eq_true, false_iff]
    rintro ⟨hA, hB, -, -⟩
    rcases h1 with h1 | h1
    · exact hA h1
    · exact hB h1
  · simp only [Option.isSome_none, Bool.false_eq_true, false_iff]
    rintro ⟨-, -, hC, -⟩
    exact h2 (by rw [hC])
  · simp only [Option.isSome_none, Bool.false_eq_true, false_iff]
    rintro ⟨-, -, hC, -⟩
    exact h3 hC
  · simp only [Option.isSome_none, Bool.false_eq_true, false_iff]
    rintro ⟨-, -, -, hD⟩
    omega
  · simp only [Option.isSome_some, true_iff]
    push_neg at h1
    exact ⟨h1.1, h1.2, not_ne_iff.mp h3, not_lt.mp h4⟩
  · simp only [Option.isSome_some, true_iff]
    push_neg at h1
    exact ⟨h1.1, h1.2, not_ne_iff.mp h3, not_lt.mp h4⟩

/-- A one-word transcript saying hello over [0, 1]. -/
def helloTranscript : TranscriptData :=
  ⟨[], 1, [], [⟨['h', 'e', 'l', 'l', 'o'], 0, 1, wordLit, [], 0⟩]⟩

/-- Witness for C8: with matching one-word transcripts the retime succeeds,
and the caller's fallback uses the segment audio exactly when retiming
returned none. -/
theorem retime_all_or_nothing_witness :
    (retimeSegmentToOriginalWindow ⟨10, [1, 1, 1]⟩ (some helloTranscript)
        (some helloTranscript) 0 1).isSome
      ∧ chooseReplacementBuffer ⟨10, [1]⟩ none = ⟨10, [1]⟩ := by
  constructor
  · exact (retime_all_or_nothing ⟨10, [1, 1, 1]⟩ helloTranscript helloTranscript
      0 1).1.mpr (by decide)
  · exact ((retime_all_or_nothing ⟨10, [1, 1, 1]⟩ helloTranscript helloTranscript
      0 1).2.2.2.2 ⟨10, [1]⟩).1

/-! ### C1: splice duration bookkeeping -/

theorem length_foldl_set_invariant {β : Type} (l : List β) (g : List ℚ → β → List ℚ)
    (h : ∀ o i, (g o i).length = o.length) (o : List ℚ) :
    (l.foldl g o).length = o.length := by
  induction l generalizing o with
  | nil => rfl
  | cons x xs ih => rw [List.foldl_cons, ih, h]

theorem padLoop_length (tone : List ℚ) (origLen chunk cross targetLen : ℕ)
    (fuel : ℕ) (out : List ℚ) (writePos : ℕ) :
    (padLoop tone origLen chunk cross targetLen fuel out writePos).length
      = out.length := by
  induction fuel generalizing out writePos with
  | zero => rfl
  | succ fuel ih =>
    rw [padLoop]
    split_ifs with h
    · rfl
    · rw [ih]
      rw [length_foldl_set_invariant _ _ (fun o k => by simp)]
      rw [length_foldl_set_invariant _ _ (fun o i => by simp)]

theorem applyMicroFades_length (buffer : AudioBufM) (fadeSec : ℚ) :
    (applyMicroFades buffer fadeSec).data.length = buffer.data.length := by
  simp [applyMicroFades]

theorem applyMicroFades_sampleRate (buffer : AudioBufM) (fadeSec : ℚ) :
    (applyMicroFades buffer fadeSec).sampleRate = buffer.sampleRate := rfl

theorem trimSilence_sampleRate (buffer : AudioBufM) (windowMs : ℚ) :
    (trimSilence buffer windowMs).sampleRate = buffer.sampleRate := rfl

theorem extractSegment_sampleRate (buffer : AudioBufM) (s e : ℚ) :
    (extractSegment buffer s e).sampleRate = buffer.sampleRate := by
  simp only [extractSegment]
  split_ifs <;> rfl

theorem extractSegment_length_pos (buffer : AudioBufM) (s e : ℚ) :
    1 ≤ (extractSegment buffer s e).data.length := by
  simp only [extractSegment]
  split_ifs with h
  · simp
  · simp only [List.length_map, List.length_range]
    omega

/-- The length fitToLength always produces: the target length in samples,
never less than one. -/
theorem fitToLength_length (buffer : AudioBufM) (targetSec : ℚ) (roomTone : AudioBufM) :
    (fitToLength buffer targetSec roomTone).data.length
      = (max 1 (jsFloor (targetSec * buffer.sampleRate))).toNat := by
  simp only [fitToLength]
  split_ifs with h1 h2
  · exact h1
  · rw [applyMicroFades_length]
    simp only [List.length_take]
    omega
  · rw [applyMicroFades_length]
    simp only []
    rw [padLoop_length]
    rw [List.length_append, List.length_replicate]
    omega

theorem fitToLength_sampleRate (buffer : AudioBufM) (targetSec : ℚ) (roomTone : AudioBufM) :
    (fitToLength buffer targetSec roomTone).sampleRate = buffer.sampleRate := by
  simp only [fitToLength]
  split_ifs <;> rfl

theorem crossfadeConcat_sampleRate (a b : AudioBufM) (crossMs : ℚ) :
    (crossfadeConcat a b crossMs).sampleRate = a.sampleRate := rfl

/-- At the source's crossMs = 0.01 the crossfade is zero samples for every
sample rate below 100000, so the concatenation length is exact. -/
theorem crossfadeConcat_len (a b : AudioBufM) (h1 : 0 ≤ a.sampleRate)
    (h2 : a.sampleRate < 100000) (ha : 1 ≤ a.data.length) (hb : 1 ≤ b.data.length) :
    (crossfadeConcat a b 0.01).data.length = a.data.length + b.data.length := by
  have hcross : jsFloor ((0.01 / 1000) * a.sampleRate) = 0 := by
    unfold jsFloor
    rw [Int.floor_eq_zero_iff]
    constructor
    · positivity
    · have : (0.01 / 1000 : ℚ) * a.sampleRate = a.sampleRate / 100000 := by ring
      rw [this]
      rw [div_lt_one (by norm_num)]
      exact h2
  simp only [crossfadeConcat, hcross, List.length_map, List.length_range]
  omega

/-- Integer sample counts obtained as max 1 ⌊x⌋ are within one sample of x
for positive x. -/
theorem fitLen_close (x : ℚ) (hx : 0 < x) :
    |(((max 1 (jsFloor x)).toNat : ℕ) : ℚ) - x| ≤ 1 := by
  unfold jsFloor
  rcases le_or_lt (⌊x⌋ : ℤ) 0 with hf | hf
  · have hmax : max 1 ⌊x⌋ = 1 := by omega
    rw [hmax]
    have hx1 : x < 1 := by
      have := Int.lt_floor_add_one x
      have : (⌊x⌋ : ℚ) ≤ 0 := by exact_mod_cast hf
      have := Int.lt_floor_add_one x
      calc x < (⌊x⌋ : ℚ) + 1 := Int.lt_floor_add_one x
        _ ≤ 0 + 1 := by linarith
        _ = 1 := by ring
    rw [abs_le]
    constructor <;> simp <;> linarith
  · have hmax : max 1 ⌊x⌋ = ⌊x⌋ := by omega
    rw [hmax]
    have hcast : (((⌊x⌋).toNat : ℕ) : ℚ) = ((⌊x⌋ : ℤ) : ℚ) := by
      have : (0 : ℤ) ≤ ⌊x⌋ := by omega
      exact_mod_cast Int.toNat_of_nonneg this
    rw [hcast, abs_le]
    have hle : ((⌊x⌋ : ℤ) : ℚ) ≤ x := Int.floor_le x
    have hgt : x < ((⌊x⌋ : ℤ) : ℚ) + 1 := Int.lt_floor_add_one x
    constructor <;> linarith

/-- C1 (amended): for a valid window 0 ≤ s < e ≤ duration and realistic
matching sample rates, the spliced output is exactly the before part, the
length-fitted replacement, and the after part concatenated, and the fitted
replacement's length is within one sample of (e - s) seconds.  (The output's
total length is NOT within one sample of the base's in general: each of the
two boundary placeholders can add an extra sample.) -/
theorem splice_duration (original newSeg : AudioBufM) (s e : ℚ)
    (hsr1 : 1 ≤ original.sampleRate) (hsr2 : original.sampleRate < 100000)
    (hsame : newSeg.sampleRate = original.sampleRate)
    (h0 : 0 ≤ s) (hse : s < e) (hdur : e ≤ original.duration) :
    (replaceAudioSegment original newSeg s e).data.length
        = (if 0 < s then extractSegment original 0 s
            else ⟨original.sampleRate, [0]⟩).data.length
          + (fitToLength (applyMicroFades (trimSilence newSeg 8) 0.008) (e - s)
              (buildRoomTone original s e 0.05)).data.length
          + (if e < original.duration then extractSegment original e original.duration
              else ⟨original.sampleRate, [0]⟩).data.length
      ∧ |(((fitToLength (applyMicroFades (trimSilence newSeg 8) 0.008) (e - s)
              (buildRoomTone original s e 0.05)).data.length : ℕ) : ℚ)
            - (e - s) * original.sampleRate| ≤ 1 := by
  have hdm : s ≤ original.duration := le_trans hse.le hdur
  have hc1 : max 0 (min s original.duration) = s := by
    rw [min_eq_left hdm, max_eq_right h0]
  have hc2 : max s (min e original.duration) = e := by
    rw [min_eq_left hdur, max_eq_right hse.le]
  have hts : max 0 (e - s) = e - s := max_eq_right (by linarith)
  have hfit_sr : (applyMicroFades (trimSilence newSeg 8) 0.008).sampleRate
      = original.sampleRate := by
    rw [applyMicroFades_sampleRate, trimSilence_sampleRate, hsame]
  set before := (if 0 < s then extractSegment original 0 s
    else (⟨original.sampleRate, [0]⟩ : AudioBufM)) with hbefore
  set after := (if e < original.duration then extractSegment original e original.duration
    else (⟨original.sampleRate, [0]⟩ : AudioBufM)) with hafter
  set fitted := fitToLength (applyMicroFades (trimSilence newSeg 8) 0.008) (e - s)
    (buildRoomTone original s e 0.05) with hfitted
  have hbefore_sr : before.sampleRate = original.sampleRate := by
    rw [hbefore]
    split_ifs with h
    · exact extractSegment_sampleRate original 0 s
    · rfl
  have hbefore_len : 1 ≤ before.data.length := by
    rw [hbefore]
    split_ifs with h
    · exact extractSegment_length_pos original 0 s
    · simp
  have hafter_len : 1 ≤ after.data.length := by
    rw [hafter]
    split_ifs with h
    · exact extractSegment_length_pos original e original.duration
    · simp
  have hfitted_len : (max 1 (jsFloor ((e - s) * original.sampleRate))).toNat
      = fitted.data.length := by
    rw [hfitted, fitToLength_length, hfit_sr]
  have hfitted_pos : 1 ≤ fitted.data.length := by
    rw [← hfitted_len]
    omega
  have hrepl : replaceAudioSegment original newSeg s e
      = crossfadeConcat (crossfadeConcat before fitted 0.01) after 0.01 := by
    simp only [replaceAudioSegment]
    rw [hc1, hc2, hts, ← hbefore, ← hafter, ← hfitted]
  have hbefore_sr' : 0 ≤ before.sampleRate := by rw [hbefore_sr]; linarith
  have hbefore_sr2 : before.sampleRate < 100000 := by rw [hbefore_sr]; exact hsr2
  have hbj_len : (crossfadeConcat before fitted 0.01).data.length
      = before.data.length + fitted.data.length :=
    crossfadeConcat_len before fitted hbefore_sr' hbefore_sr2 hbefore_len hfitted_pos
  have hbj_sr : (crossfadeConcat before fitted 0.01).sampleRate = original.sampleRate := by
    rw [crossfadeConcat_sampleRate, hbefore_sr]
  have houter : (crossfadeConcat (crossfadeConcat before fitted 0.01) after 0.01).data.length
      = (crossfadeConcat before fitted 0.01).data.length + after.data.length := by
    apply crossfadeConcat_len
    · rw [hbj_sr]; linarith
    · rw [hbj_sr]; exact hsr2
    · rw [hbj_len]; omega
    · exact hafter_len
  constructor
  · rw [hrepl, houter, hbj_len]
  · rw [← hfitted_len]
    exact fitLen_close ((e - s) * original.sampleRate)
      (mul_pos (by linarith) (by linarith))

/-- 2-second silent base at 10 samples per second. -/
def tinyBase : AudioBufM := ⟨10, List.replicate 20 0⟩

/-- Half-second replacement clip. -/
def tinyReplacement : AudioBufM := ⟨10, List.replicate 5 1⟩

/-- Counterexample to C1 as stated: splicing the full valid window
[0, duration] produces an output two samples longer than the base (each
empty side contributes a 1-sample placeholder), so the output's total
duration is NOT within one sample of the base's. -/
theorem splice_total_duration_counterexample :
    (0 : ℚ) ≤ 0 ∧ (0 : ℚ) < 2 ∧ (2 : ℚ) ≤ tinyBase.duration
      ∧ (replaceAudioSegment tinyBase tinyReplacement 0 2).data.length = 22
      ∧ tinyBase.data.length = 20
      ∧ ¬ (|(((replaceAudioSegment tinyBase tinyReplacement 0 2).data.length : ℕ) : ℚ)
            - ((tinyBase.data.length : ℕ) : ℚ)| ≤ 1) := by
  decide

/-- Witness for the amended C1 at the same concrete input: the fitted
replacement is exactly 20 samples, matching e - s = 2 seconds exactly. -/
theorem splice_duration_witness :
    (replaceAudioSegment tinyBase tinyReplacement 0 2).data.length
        = (if (0 : ℚ) < 0 then extractSegment tinyBase 0 0
            else ⟨tinyBase.sampleRate, [0]⟩).data.length
          + (fitToLength (applyMicroFades (trimSilence tinyReplacement 8) 0.008) (2 - 0)
              (buildRoomTone tinyBase 0 2 0.05)).data.length
          + (if (2 : ℚ) < tinyBase.duration then extractSegment tinyBase 2 tinyBase.duration
              else ⟨tinyBase.sampleRate, [0]⟩).data.length := by
  exact (splice_duration tinyBase tinyReplacement 0 2 (by decide) (by decide)
    (by decide) (by decide) (by decide) (by decide)).1

/-! ## C6: structural independence of history snapshots

Reference sharing is made observable by annotating every mutable JS
object/array of the history state with an allocation id; a JS object literal
or array copy allocates a fresh id.  The clone functions of use-history.ts
(lines 10-53) are re-embedded over these id-annotated structures, threading
an allocation counter; blobs are opaque immutable handles whose ids are
copied (shared) as the source does.  Structural independence of a snapshot
is then: the set of mutable ids reachable from the clone is disjoint from
the ids reachable from the live input, while the erased values coincide and
blob handles are shared. -/

structure WordTimingH where
  id : ℕ
  text : List Char
  start : ℚ
  end_ : ℚ
  type : List Char
  speaker_id : List Char
  logprob : ℚ
deriving DecidableEq, Repr, Inhabited

structure TranscriptH where
  id : ℕ
  wordsId : ℕ
  language_code : List Char
  language_probability : ℚ
  text : List Char
  words : List WordTimingH
deriving DecidableEq, Repr, Inhabited

structure AudioDataH where
  id : ℕ
  waveformId : ℕ
  url : List Char
  duration : ℚ
  waveform : List ℚ
  blobId : Option ℕ
  transcript : Option TranscriptH
deriving DecidableEq, Repr, Inhabited

structure AudioSegmentH where
  id : ℕ
  waveformId : ℕ
  startIndex : ℤ
  endIndex : ℤ
  audioUrl : List Char
  waveform : List ℚ
  blobId : Option ℕ
  startTime : ℚ
  endTime : ℚ
  durationSec : Option ℚ
  transcript : Option TranscriptH
  text : Option (List Char)
deriving DecidableEq, Repr, Inhabited

structure HistoryStateH where
  id : ℕ
  segmentsId : ℕ
  script : List Char
  audioData : Option AudioDataH
  audioSegments : List AudioSegmentH
  timestamp : ℚ
  action : List Char
deriving DecidableEq, Repr, Inhabited

/-- Ids of the mutable objects/arrays reachable from a transcript: the
transcript object, its words array, and every word object. -/
def transcriptMutIds : Option TranscriptH → List ℕ
  | none => []
  | some t => t.id :: t.wordsId :: t.words.map (fun w => w.id)

def audioDataMutIds : Option AudioDataH → List ℕ
  | none => []
  | some a => a.id :: a.waveformId :: transcriptMutIds a.transcript

def audioSegmentMutIds (s : AudioSegmentH) : List ℕ :=
  s.id :: s.waveformId :: transcriptMutIds s.transcript

def historyMutIds (st : HistoryStateH) : List ℕ :=
  st.id :: st.segmentsId ::
    (audioDataMutIds st.audioData ++ (st.audioSegments.map audioSegmentMutIds).flatten)

/-- Opaque blob handles reachable from a history state, in order. -/
def historyBlobIds (st : HistoryStateH) : List (Option ℕ) :=
  (match st.audioData with
    | none => []
    | some a => [a.blobId]) ++ st.audioSegments.map (fun s => s.blobId)

/-- Forget allocation ids to recover the value-level data model. -/
def eraseWordH (w : WordTimingH) : WordTiming :=
  ⟨w.text, w.start, w.end_, w.type, w.speaker_id, w.logprob⟩

def eraseTranscriptH : Option TranscriptH → Option TranscriptData
  | none => none
  | some t =>
    some ⟨t.language_code, t.language_probability, t.text, t.words.map eraseWordH⟩

def eraseAudioDataH : Option AudioDataH → Option AudioData
  | none => none
  | some a => some ⟨a.url, a.duration, a.waveform, a.blobId, eraseTranscriptH a.transcript⟩

def eraseAudioSegmentH (s : AudioSegmentH) : AudioSegment :=
  ⟨s.startIndex, s.endIndex, s.audioUrl, s.waveform, s.blobId, s.startTime,
    s.endTime, s.durationSec, eraseTranscriptH s.transcript, s.text⟩

def eraseHistoryStateH (st : HistoryStateH) : HistoryState :=
  ⟨st.script, eraseAudioDataH st.audioData, st.audioSegments.map eraseAudioSegmentH,
    st.timestamp, st.action⟩

/-- The word-object map of cloneTranscript: each mapped object literal is a
fresh allocation. -/
def cloneWordsH : List WordTimingH → ℕ → List WordTimingH × ℕ
  | [], n => ([], n)
  | w :: ws, n =>
    let rest := cloneWordsH ws (n + 1)
    (⟨n, w.text, w.start, w.end_, w.type, w.speaker_id, w.logprob⟩ :: rest.1, rest.2)

/-- cloneTranscript (use-history.ts lines 11-21) with explicit allocation:
a fresh transcript object, a fresh words array, fresh word objects; all
scalar fields copied by value. -/
def cloneTranscriptH : Option TranscriptH → ℕ → Option TranscriptH × ℕ
  | none, n => (none, n)
  | some t, n =>
    let ws := cloneWordsH t.words (n + 2)
    (some ⟨n, n + 1, t.language_code, t.language_probability, t.text, ws.1⟩, ws.2)

/-- cloneAudioData (lines 23-32): fresh object, fresh waveform array copy,
blob handle shared by reference, transcript deep-cloned. -/
def cloneAudioDataH : Option AudioDataH → ℕ → Option AudioDataH × ℕ
  | none, n => (none, n)
  | some a, n =>
    let tr := cloneTranscriptH a.transcript (n + 2)
    (some ⟨n, n + 1, a.url, a.duration, a.waveform, a.blobId, tr.1⟩, tr.2)

/-- cloneAudioSegment (lines 34-45). -/
def cloneAudioSegmentH (s : AudioSegmentH) (n : ℕ) : AudioSegmentH × ℕ :=
  let tr := cloneTranscriptH s.transcript (n + 2)
  (⟨n, n + 1, s.startIndex, s.endIndex, s.audioUrl, s.waveform, s.blobId,
    s.startTime, s.endTime, s.durationSec, tr.1, s.text⟩, tr.2)

def cloneSegListH : List AudioSegmentH → ℕ → List AudioSegmentH × ℕ
  | [], n => ([], n)
  | sg :: rest, n =>
    let c := cloneAudioSegmentH sg n
    let cs := cloneSegListH rest c.2
    (c.1 :: cs.1, cs.2)

/-- cloneHistoryState (lines 47-53): a fresh snapshot object and segments
array, componentwise deep clones; the same shape is built inline by
saveToHistory's snapshot literal (lines 62-68). -/
def cloneHistoryStateH (st : HistoryStateH) (n : ℕ) : HistoryStateH × ℕ :=
  let ad := cloneAudioDataH st.audioData (n + 2)
  let segs := cloneSegListH st.audioSegments ad.2
  (⟨n, n + 1, st.script, ad.1, segs.1, st.timestamp, st.action⟩, segs.2)

theorem cloneWordsH_spec (ws : List WordTimingH) (n : ℕ) :
    n ≤ (cloneWordsH ws n).2
      ∧ (∀ w ∈ (cloneWordsH ws n).1, n ≤ w.id)
      ∧ (cloneWordsH ws n).1.map eraseWordH = ws.map eraseWordH := by
  induction ws generalizing n with
  | nil => exact ⟨le_refl n, (by intro w hw; simp [cloneWordsH] at hw), rfl⟩
  | cons w ws ih =>
    obtain ⟨ih1, ih2, ih3⟩ := ih (n + 1)
    refine ⟨by simp only [cloneWordsH]; omega, ?_, ?_⟩
    · intro w' hw'
      simp only [cloneWordsH, List.mem_cons] at hw'
      rcases hw' with hw' | hw'
      · subst hw'; exact le_refl n
      · have := ih2 w' hw'; omega
    · simp only [cloneWordsH, List.map_cons, ih3]
      rfl

theorem cloneTranscriptH_spec (t : Option TranscriptH) (n : ℕ) :
    n ≤ (cloneTranscriptH t n).2
      ∧ (∀ i ∈ transcriptMutIds (cloneTranscriptH t n).1, n ≤ i)
      ∧ eraseTranscriptH (cloneTranscriptH t n).1 = eraseTranscriptH t := by
  cases t with
  | none =>
    exact ⟨le_refl n, (by intro i hi; simp [cloneTranscriptH, transcriptMutIds] at hi),
      rfl⟩
  | some t =>
    obtain ⟨h1, h2, h3⟩ := cloneWordsH_spec t.words (n + 2)
    refine ⟨by simp only [cloneTranscriptH]; omega, ?_, ?_⟩
    · intro i hi
      simp only [cloneTranscriptH, transcriptMutIds, List.mem_cons, List.mem_map] at hi
      rcases hi with h | h | ⟨w, hw, h⟩
      · omega
      · omega
      · have := h2 w hw; omega
    · simp only [cloneTranscriptH, eraseTranscriptH, Option.some.injEq,
        TranscriptData.mk.injEq, true_and]
      exact h3

theorem cloneAudioDataH_spec (a : Option AudioDataH) (n : ℕ) :
    n ≤ (cloneAudioDataH a n).2
      ∧ (∀ i ∈ audioDataMutIds (cloneAudioDataH a n).1, n ≤ i)
      ∧ eraseAudioDataH (cloneAudioDataH a n).1 = eraseAudioDataH a
      ∧ (cloneAudioDataH a n).1.map (fun x => x.blobId) = a.map (fun x => x.blobId) := by
  cases a with
  | none =>
    exact ⟨le_refl n, (by intro i hi; simp [cloneAudioDataH, audioDataMutIds] at hi),
      rfl, rfl⟩
  | some a =>
    obtain ⟨h1, h2, h3⟩ := cloneTranscriptH_spec a.transcript (n + 2)
    refine ⟨by simp only [cloneAudioDataH]; omega, ?_, ?_, rfl⟩
    · intro i hi
      simp only [cloneAudioDataH, audioDataMutIds, List.mem_cons] at hi
      rcases hi with h | h | hi
      · omega
      · omega
      · have := h2 i hi; omega
    · simp only [cloneAudioDataH, eraseAudioDataH, Option.some.injEq,
        AudioData.mk.injEq, true_and, and_true]
      exact h3

theorem cloneAudioSegmentH_spec (s : AudioSegmentH) (n : ℕ) :
    n ≤ (cloneAudioSegmentH s n).2
      ∧ (∀ i ∈ audioSegmentMutIds (cloneAudioSegmentH s n).1, n ≤ i)
      ∧ eraseAudioSegmentH (cloneAudioSegmentH s n).1 = eraseAudioSegmentH s
      ∧ (cloneAudioSegmentH s n).1.blobId = s.blobId := by
  obtain ⟨h1, h2, h3⟩ := cloneTranscriptH_spec s.transcript (n + 2)
  refine ⟨by simp only [cloneAudioSegmentH]; omega, ?_, ?_, rfl⟩
  · intro i hi
    simp only [cloneAudioSegmentH, audioSegmentMutIds, List.mem_cons] at hi
    rcases hi with h | h | hi
    · omega
    · omega
    · have := h2 i hi; omega
  · simp only [cloneAudioSegmentH, eraseAudioSegmentH, AudioSegment.mk.injEq, true_and,
      and_true]
    exact h3

theorem cloneSegListH_spec (segs : List AudioSegmentH) (n : ℕ) :
    n ≤ (cloneSegListH segs n).2
      ∧ (∀ i ∈ ((cloneSegListH segs n).1.map audioSegmentMutIds).flatten, n ≤ i)
      ∧ (cloneSegListH segs n).1.map eraseAudioSegmentH = segs.map eraseAudioSegmentH
      ∧ (cloneSegListH segs n).1.map (fun s => s.blobId)
          = segs.map (fun s => s.blobId) := by
  induction segs generalizing n with
  | nil =>
    exact ⟨le_refl n, (by intro i hi; simp [cloneSegListH] at hi), rfl, rfl⟩
  | cons sg rest ih =>
    obtain ⟨hs1, hs2, hs3, hs4⟩ := cloneAudioSegmentH_spec sg n
    obtain ⟨ih1, ih2, ih3, ih4⟩ := ih (cloneAudioSegmentH sg n).2
    refine ⟨by simp only [cloneSegListH]; omega, ?_, ?_, ?_⟩
    · intro i hi
      simp only [cloneSegListH, List.map_cons, List.flatten_cons, List.mem_append] at hi
      rcases hi with hi | hi
      · exact hs2 i hi
      · have := ih2 i hi; omega
    · simp only [cloneSegListH, List.map_cons, hs3, ih3]
    · simp only [cloneSegListH, List.map_cons, hs4, ih4]

/-- C6: cloning a history snapshot allocates only fresh mutable
objects/arrays (ids at or above the allocation frontier), so a well-formed
live state (all its mutable ids below the frontier) shares no mutable
object or array with the clone; the cloned value is unchanged and the
opaque blob handles are shared by reference. -/
theorem snapshot_clone_independent (st : HistoryStateH) (n : ℕ)
    (hwf : ∀ i ∈ historyMutIds st, i < n) :
    (∀ i ∈ historyMutIds (cloneHistoryStateH st n).1, n ≤ i)
      ∧ (∀ i ∈ historyMutIds st, i ∉ historyMutIds (cloneHistoryStateH st n).1)
      ∧ eraseHistoryStateH (cloneHistoryStateH st n).1 = eraseHistoryStateH st
      ∧ historyBlobIds (cloneHistoryStateH st n).1 = historyBlobIds st := by
  obtain ⟨ha1, ha2, ha3, ha4⟩ := cloneAudioDataH_spec st.audioData (n + 2)
  obtain ⟨hl1, hl2, hl3, hl4⟩ := cloneSegListH_spec st.audioSegments
    (cloneAudioDataH st.audioData (n + 2)).2
  have hfresh : ∀ i ∈ historyMutIds (cloneHistoryStateH st n).1, n ≤ i := by
    intro i hi
    simp only [cloneHistoryStateH, historyMutIds, List.mem_cons, List.mem_append] at hi
    rcases hi with h | h | hi | hi
    · omega
    · omega
    · have := ha2 i hi; omega
    · have := hl2 i hi; omega
  refine ⟨hfresh, ?_, ?_, ?_⟩
  · intro i hi hcontra
    have := hwf i hi
    have := hfresh i hcontra
    omega
  · simp only [cloneHistoryStateH, eraseHistoryStateH, HistoryState.mk.injEq, true_and,
      and_true]
    exact ⟨ha3, hl3⟩
  · simp only [cloneHistoryStateH, historyBlobIds]
    cases hcase : st.audioData with
    | none =>
      rw [hcase] at ha4 hl4
      have hnone : (cloneAudioDataH none (n + 2)).1 = none := rfl
      rw [hnone]
      simpa using hl4
    | some a =>
      rw [hcase] at ha4 hl4
      cases hcc : (cloneAudioDataH (some a) (n + 2)).1 with
      | none => rw [hcc] at ha4; simp at ha4
      | some c =>
        rw [hcc] at ha4
        simp at ha4
        change [c.blobId] ++ _ = [a.blobId] ++ _
        rw [ha4, hl4]

/-- Witness for C6 at a concrete live state whose ids are 0..6. -/
def liveStateH : HistoryStateH :=
  ⟨0, 1, ['s'],
    some ⟨2, 3, ['u'], 1, [1, 2], some 99,
      some ⟨4, 5, ['e', 'n'], 1, ['t'], [⟨6, ['h', 'i'], 0, 1, wordLit, [], 0⟩]⟩⟩,
    [], 0, ['a']⟩

theorem snapshot_clone_independent_witness :
    (∀ i ∈ historyMutIds liveStateH, i < 7)
      ∧ (∀ i ∈ historyMutIds liveStateH,
          i ∉ historyMutIds (cloneHistoryStateH liveStateH 7).1)
      ∧ eraseHistoryStateH (cloneHistoryStateH liveStateH 7).1
          = eraseHistoryStateH liveStateH := by
  refine ⟨by decide, ?_, ?_⟩
  · exact (snapshot_clone_independent liveStateH 7 (by decide)).2.1
  · exact (snapshot_clone_independent liveStateH 7 (by decide)).2.2.1

end Podcast
